import Mathlib

/-
Shallow embedding of the token-borrowing machine from src/machine2.rs.

The Rust `TokenMachine` keeps a `HashMap<Nat, RefInfo>` whose keys are
`Reference(0) .. Reference(ref_count - 1)`: `create_ref` allocates ids
sequentially from `ref_count` which always equals the number of registered
references.  We therefore model the registry as a `List RefInfo` indexed by the
reference id; `ref_count` is the list's length.  The `u32` counters are modelled
as `Nat` (no claim concerns counter overflow); where the Rust code would panic
on `u32` underflow this is modelled explicitly (see `merge_token`).

Every Rust `panic!` / failed `assert!` / `expect` / failed map lookup is
modelled as a distinct `Fault`; an operation returns `Except Fault` with the
successor state on success.
-/

namespace TokenMachineModel

/-- Lifecycle of a reference, machine2.rs `RefState`. -/
inductive RefState
  | Created
  | Borrowing
  | Dead
deriving DecidableEq

/-- Permission kind of a reference, machine2.rs `RefKind`. -/
inductive RefKind
  | SharedReadOnly
  | SharedReadWrite
  | Unique
deriving DecidableEq

/-- machine2.rs `TokenExclusivity`: derived from the global unit count. -/
inductive TokenExclusivity
  | Shared
  | Exclusive
deriving DecidableEq

/-- machine2.rs `TokenPermissions`: the stored global access mode. -/
inductive TokenPermissions
  | ReadOnly
  | ReadWrite
deriving DecidableEq

/-- machine2.rs `AccessKind`: the kind of memory access being validated. -/
inductive AccessKind
  | Read
  | Write
deriving DecidableEq

/-- machine2.rs `TokenInfo(exclusivity, perms)`. -/
structure TokenInfo where
  exclusivity : TokenExclusivity
  perms : TokenPermissions
deriving DecidableEq

/-
References (`Reference(u32)` in the source) are the sequentially allocated ids;
they are written as plain `Nat` below.
-/

/-- machine2.rs `RefInfo`: the per-reference record. -/
structure RefInfo where
  kind : RefKind
  state : RefState
  parent : Nat
  num_tokens : Nat
  num_splits : Nat
deriving DecidableEq

/-- machine2.rs `TokenMachine`.  `ref_info` is the arena of records indexed by
reference id; its length is the Rust `ref_count`. -/
structure TokenMachine where
  token_count : Nat
  ref_info : List RefInfo
  token_perms : TokenPermissions
deriving DecidableEq

/-- Each way an operation of machine2.rs can fail: every `panic!`, failed
`assert!`, `expect` and out-of-registry `HashMap` lookup gets a tag. -/
inductive Fault
  /-- A `HashMap` lookup (`ref_info[&r]` or `get_mut(&r).unwrap()`) on an
  unregistered reference. -/
  | unregistered
  /-- create_ref: "Cannot create mutable reference from immutable reference". -/
  | kindViolation
  /-- borrow_token: "Need to have a token to lend one out"; dup_token:
  "Cannot duplicate a token if you do not have a token". -/
  | insufficientTokens
  /-- borrow_token: "Target has already received a token before". -/
  | alreadyBorrowing
  /-- borrow_token: "Target cannot be dead". -/
  | deadTarget
  /-- return_token: "Cannot give back a token if you don't have one". -/
  | noTokenToReturn
  /-- return_token: "Can only give back the entire token and not just some
  piece of it". -/
  | splitReturnForbidden
  /-- return_token: `assert!(source_info.num_tokens == 1)`. -/
  | assertFailed
  /-- merge_token: "Can only merge tokens if you have more than one". -/
  | nothingToMerge
  /-- merge_token: `num_splits -= 1` underflowing below zero (a debug-build
  panic in the Rust source, firing after `num_tokens` was already mutated). -/
  | splitUnderflow
  /-- set_token_perms / use_token: the `expect` on a `None` from
  get_token_info (caller owns no token). -/
  | noToken
  /-- get_token_info: `assert!(source_info.state != RefState::Dead)`. -/
  | deadReference
  /-- set_token_perms: "Need to have exclusive ownership of the token". -/
  | notExclusive
  /-- use_token, SharedReadOnly + Write: "Cannot write with read-only
  reference". -/
  | readOnlyViolation
  /-- use_token, SharedReadOnly + Read rejected: "Cannot read with shared
  read-only reference if there are writers". -/
  | sroReadViolation
  /-- use_token, SharedReadWrite + Write rejected: "Writing using SharedRW
  requires read-write token". -/
  | srwWriteViolation
  /-- use_token, Unique + Read rejected: "Cannot read with unique reference if
  there are writers". -/
  | uniqueReadViolation
  /-- use_token, Unique + Write rejected: "Writing with unique reference
  requires exclusive read-write access". -/
  | uniqueWriteViolation
deriving DecidableEq

/-- The record of the initial (root) reference set up by `TokenMachine::init`:
kind Unique, state Borrowing, its own parent, one token, no splits. -/
def rootInfo : RefInfo :=
  { kind := .Unique, state := .Borrowing, parent := 0, num_tokens := 1, num_splits := 0 }

/-- machine2.rs `TokenMachine::init`: one reference (id 0) holding the whole
token in read-write mode.  The Rust function returns `(Reference(0), machine)`;
the root id is 0. -/
def mInit : TokenMachine :=
  { token_count := 1, ref_info := [rootInfo], token_perms := .ReadWrite }

/-- Update the record at index `i` in place, the model of
`ref_info.get_mut(&i).unwrap()` followed by a field mutation (no-op on an
unregistered index; every use below is guarded by a registration check). -/
def updRef (l : List RefInfo) (i : Nat) (f : RefInfo → RefInfo) : List RefInfo :=
  match l[i]? with
  | none => l
  | some r => l.set i (f r)

/-- `num_tokens -= 1`. -/
def decTok (r : RefInfo) : RefInfo := { r with num_tokens := r.num_tokens - 1 }

/-- `num_tokens += 1`. -/
def incTok (r : RefInfo) : RefInfo := { r with num_tokens := r.num_tokens + 1 }

/-- `state = st`. -/
def setSt (st : RefState) (r : RefInfo) : RefInfo := { r with state := st }

/-- dup_token's mutation: `num_tokens += 1; num_splits += 1`. -/
def bumpSplit (r : RefInfo) : RefInfo :=
  { r with num_tokens := r.num_tokens + 1, num_splits := r.num_splits + 1 }

/-- merge_token's mutation: `num_tokens -= 1; num_splits -= 1`. -/
def dropSplit (r : RefInfo) : RefInfo :=
  { r with num_tokens := r.num_tokens - 1, num_splits := r.num_splits - 1 }

/-- The record `create_ref` registers for a fresh reference. -/
def freshInfo (parent : Nat) (kind : RefKind) : RefInfo :=
  { kind := kind, state := .Created, parent := parent, num_tokens := 0, num_splits := 0 }

/-- machine2.rs `create_ref`: register a fresh child of `parent` with the given
kind, rejecting a non-SharedReadOnly child of a SharedReadOnly parent.  The
fresh id is the Rust `ref_count`, i.e. the current number of registered
references. -/
def create_ref (s : TokenMachine) (parent : Nat) (kind : RefKind) :
    Except Fault (Nat × TokenMachine) :=
  match s.ref_info[parent]? with
  | none => .error .unregistered
  | some parent_info =>
    if parent_info.kind = .SharedReadOnly ∧ kind ≠ .SharedReadOnly then
      .error .kindViolation
    else
      .ok (s.ref_info.length,
        { s with ref_info := s.ref_info ++ [freshInfo parent kind] })

/-- machine2.rs `borrow_token`: move one token unit from `target`'s parent to
`target`.  The source-owns-a-token check comes before the target-state match,
exactly as in the source; the three mutations are performed in source order. -/
def borrow_token (s : TokenMachine) (target : Nat) : Except Fault TokenMachine :=
  match s.ref_info[target]? with
  | none => .error .unregistered
  | some target_info =>
    match s.ref_info[target_info.parent]? with
    | none => .error .unregistered
    | some source_info =>
      if source_info.num_tokens = 0 then .error .insufficientTokens
      else
        match target_info.state with
        | .Created =>
          let l1 := updRef s.ref_info target_info.parent decTok
          let l2 := updRef l1 target incTok
          let l3 := updRef l2 target (setSt .Borrowing)
          .ok { s with ref_info := l3 }
        | .Borrowing => .error .alreadyBorrowing
        | .Dead => .error .deadTarget

/-- machine2.rs `return_token`: give the (single) held unit back to the parent
and become Dead.  Mutation order follows the source: decrement the source,
increment the parent (`get_mut(&target).unwrap()` — the only lookup the source
performs after a mutation), then set the source Dead. -/
def return_token (s : TokenMachine) (source : Nat) : Except Fault TokenMachine :=
  match s.ref_info[source]? with
  | none => .error .unregistered
  | some source_info =>
    if source_info.num_tokens = 0 then .error .noTokenToReturn
    else if 0 < source_info.num_splits then .error .splitReturnForbidden
    else if source_info.num_tokens ≠ 1 then .error .assertFailed
    else
      match s.ref_info[source_info.parent]? with
      | none => .error .unregistered
      | some _ =>
        let l1 := updRef s.ref_info source decTok
        let l2 := updRef l1 source_info.parent incTok
        let l3 := updRef l2 source (setSt .Dead)
        .ok { s with ref_info := l3 }

/-- machine2.rs `dup_token` (split): fragment one held unit into two. -/
def dup_token (s : TokenMachine) (source : Nat) : Except Fault TokenMachine :=
  match s.ref_info[source]? with
  | none => .error .unregistered
  | some source_info =>
    if source_info.num_tokens = 0 then .error .insufficientTokens
    else
      .ok { s with
        token_count := s.token_count + 1,
        ref_info := updRef s.ref_info source bumpSplit }

/-- machine2.rs `merge_token`: recombine two held units into one.  When
`num_splits` is zero the Rust `num_splits -= 1` underflows, a debug-build
panic that fires after `num_tokens` has already been decremented; it is
modelled as the dedicated fault `splitUnderflow`. -/
def merge_token (s : TokenMachine) (source : Nat) : Except Fault TokenMachine :=
  match s.ref_info[source]? with
  | none => .error .unregistered
  | some source_info =>
    if source_info.num_tokens ≤ 1 then .error .nothingToMerge
    else if source_info.num_splits = 0 then .error .splitUnderflow
    else
      .ok { s with
        token_count := s.token_count - 1,
        ref_info := updRef s.ref_info source dropSplit }

/-- machine2.rs `get_token_info`: `None` when the source holds no unit,
otherwise the derived `(exclusivity, perms)` pair, after the defensive
`assert!(state != Dead)`.  Exclusivity is recomputed from the live global
count: Exclusive iff `token_count == 1`. -/
def get_token_info (s : TokenMachine) (source : Nat) :
    Except Fault (Option TokenInfo) :=
  match s.ref_info[source]? with
  | none => .error .unregistered
  | some source_info =>
    if source_info.num_tokens = 0 then .ok none
    else if source_info.state = .Dead then .error .deadReference
    else
      .ok (some { exclusivity := if s.token_count = 1 then .Exclusive else .Shared,
                  perms := s.token_perms })

/-- machine2.rs `set_token_perms`: change the global access mode, gated on
exclusive ownership of the sole outstanding unit. -/
def set_token_perms (s : TokenMachine) (source : Nat)
    (token_perms : TokenPermissions) : Except Fault TokenMachine :=
  match get_token_info s source with
  | .error f => .error f
  | .ok none => .error .noToken
  | .ok (some token_info) =>
    if token_info.exclusivity ≠ .Exclusive then .error .notExclusive
    else .ok { s with token_perms := token_perms }

/-- machine2.rs `use_token`: the access validator.  Mirrors the four-way branch
on reference kind and access kind; a successful validation leaves the machine
untouched (the Rust body never writes through `&mut self`). -/
def use_token (s : TokenMachine) (source : Nat) (access_kind : AccessKind) :
    Except Fault TokenMachine :=
  match get_token_info s source with
  | .error f => .error f
  | .ok none => .error .noToken
  | .ok (some token_info) =>
    match s.ref_info[source]? with
    | none => .error .unregistered
    | some source_info =>
      match source_info.kind with
      | .SharedReadOnly =>
        match access_kind with
        | .Read =>
          if token_info = { exclusivity := .Shared, perms := .ReadOnly }
              ∨ token_info.exclusivity = .Exclusive
          then .ok s else .error .sroReadViolation
        | .Write => .error .readOnlyViolation
      | .SharedReadWrite =>
        match access_kind with
        | .Read => .ok s
        | .Write =>
          if token_info.perms = .ReadWrite then .ok s else .error .srwWriteViolation
      | .Unique =>
        match access_kind with
        | .Read =>
          if token_info = { exclusivity := .Shared, perms := .ReadOnly }
              ∨ token_info.exclusivity = .Exclusive
          then .ok s else .error .uniqueReadViolation
        | .Write =>
          if token_info = { exclusivity := .Exclusive, perms := .ReadWrite }
          then .ok s else .error .uniqueWriteViolation

/-- One invocation of the public API, with its arguments. -/
inductive Op
  | create (parent : Nat) (kind : RefKind)
  | lend (target : Nat)
  | ret (source : Nat)
  | split (source : Nat)
  | merge (source : Nat)
  | setPerms (source : Nat) (perms : TokenPermissions)
  | use (source : Nat) (access : AccessKind)

/-- Apply one operation to the machine (the fresh id returned by create is
dropped: it is determined by the state). -/
def Op.apply (s : TokenMachine) : Op → Except Fault TokenMachine
  | .create p k => (create_ref s p k).map Prod.snd
  | .lend t => borrow_token s t
  | .ret x => return_token s x
  | .split x => dup_token s x
  | .merge x => merge_token s x
  | .setPerms x m => set_token_perms s x m
  | .use x a => use_token s x a

/-- States reachable from `TokenMachine::init` by successful operations. -/
inductive Reachable : TokenMachine → Prop
  | init : Reachable mInit
  | step {s s' : TokenMachine} (op : Op) :
      Reachable s → Op.apply s op = .ok s' → Reachable s'

/-- Placeholder record used as the (never relevant) default of an
out-of-registry index read. -/
def dfltRef : RefInfo :=
  { kind := .Unique, state := .Created, parent := 0, num_tokens := 0, num_splits := 0 }

/-- The record at index `i` of an arena (meaningful only for `i < l.length`). -/
def refAtL (l : List RefInfo) (i : Nat) : RefInfo := (l[i]?).getD dfltRef

/-- The record of reference `i` in machine state `s`. -/
def refAt (s : TokenMachine) (i : Nat) : RefInfo := refAtL s.ref_info i

/-- One when the record is in the Borrowing state, zero otherwise. -/
def borrowFlag (r : RefInfo) : Nat := if r.state = .Borrowing then 1 else 0

/-- Contribution of index `j` to the count of Borrowing children of `i`
(the root's self-loop edge is not an edge of the hierarchy). -/
def childTermL (l : List RefInfo) (i j : Nat) : Nat :=
  if (refAtL l j).parent = i ∧ j ≠ i then borrowFlag (refAtL l j) else 0

/-- Number of currently-Borrowing children of reference `i`. -/
def childBL (l : List RefInfo) (i : Nat) : Nat :=
  ∑ j in Finset.range l.length, childTermL l i j

/-- Number of currently-Borrowing children of reference `i` in state `s`. -/
def childB (s : TokenMachine) (i : Nat) : Nat := childBL s.ref_info i

/-- Sum of `num_tokens` over the whole arena. -/
def listTokens (l : List RefInfo) : Nat :=
  ∑ j in Finset.range l.length, (refAtL l j).num_tokens

/-- Sum of held units over all registered references of `s`. -/
def totalTokens (s : TokenMachine) : Nat := listTokens s.ref_info

/-! ### Indexing lemmas -/

theorem lt_of_getElem?_some {l : List RefInfo} {i : Nat} {r : RefInfo}
    (h : l[i]? = some r) : i < l.length := by
  rcases List.getElem?_eq_some.mp h with ⟨hlt, _⟩
  exact hlt

theorem set_self_of_getElem? :
    ∀ (l : List RefInfo) (i : Nat) (r : RefInfo), l[i]? = some r → l.set i r = l
  | [], _, _, h => by simp at h
  | a :: l, 0, r, h => by
    simp at h
    simp [h]
  | a :: l, i + 1, r, h => by
    simp at h
    simp [List.set, set_self_of_getElem? l i r h]

theorem refAtL_of_some {l : List RefInfo} {i : Nat} {r : RefInfo}
    (h : l[i]? = some r) : refAtL l i = r := by
  simp [refAtL, h]

theorem updRef_length (l : List RefInfo) (i : Nat) (f : RefInfo → RefInfo) :
    (updRef l i f).length = l.length := by
  unfold updRef
  cases h : l[i]? <;> simp

theorem updRef_eq_set {l : List RefInfo} {i : Nat} {r : RefInfo}
    (h : l[i]? = some r) {f : RefInfo → RefInfo} :
    updRef l i f = l.set i (f r) := by
  unfold updRef
  rw [h]

theorem getElem?_updRef_self {l : List RefInfo} {i : Nat} {r : RefInfo}
    (f : RefInfo → RefInfo) (h : l[i]? = some r) :
    (updRef l i f)[i]? = some (f r) := by
  unfold updRef
  rw [h]
  exact List.getElem?_set_eq_of_lt _ (lt_of_getElem?_some h)

theorem getElem?_updRef_ne {l : List RefInfo} {i j : Nat}
    (f : RefInfo → RefInfo) (h : j ≠ i) :
    (updRef l i f)[j]? = l[j]? := by
  unfold updRef
  cases hl : l[i]? with
  | none => rfl
  | some r => exact List.getElem?_set_ne (fun e => h e.symm)

theorem refAtL_updRef_self {l : List RefInfo} {i : Nat} {r : RefInfo}
    (f : RefInfo → RefInfo) (h : l[i]? = some r) :
    refAtL (updRef l i f) i = f r := by
  simp [refAtL, getElem?_updRef_self f h]

theorem refAtL_updRef_ne {l : List RefInfo} {i j : Nat}
    (f : RefInfo → RefInfo) (h : j ≠ i) :
    refAtL (updRef l i f) j = refAtL l j := by
  simp [refAtL, getElem?_updRef_ne f h]

theorem refAt_def (s : TokenMachine) (i : Nat) : refAt s i = refAtL s.ref_info i := rfl

theorem childB_def (s : TokenMachine) (i : Nat) : childB s i = childBL s.ref_info i := rfl

theorem totalTokens_def (s : TokenMachine) : totalTokens s = listTokens s.ref_info := rfl

/-! ### Sum bookkeeping -/

theorem sum_swap_at {n t : Nat} (f g : Nat → Nat) (ht : t < n)
    (h : ∀ j, j < n → j ≠ t → f j = g j) :
    (∑ j in Finset.range n, f j) + g t = (∑ j in Finset.range n, g j) + f t := by
  have hmem : t ∈ Finset.range n := Finset.mem_range.mpr ht
  have h1 := Finset.sum_erase_add (Finset.range n) f hmem
  have h2 := Finset.sum_erase_add (Finset.range n) g hmem
  have he : (∑ j in (Finset.range n).erase t, f j)
      = ∑ j in (Finset.range n).erase t, g j := by
    refine Finset.sum_congr rfl (fun j hj => ?_)
    exact h j (Finset.mem_range.mp (Finset.mem_of_mem_erase hj)) (Finset.ne_of_mem_erase hj)
  omega

theorem listTokens_updRef {l : List RefInfo} {x : Nat} {r : RefInfo}
    (f : RefInfo → RefInfo) (h : l[x]? = some r) :
    listTokens (updRef l x f) + r.num_tokens = listTokens l + (f r).num_tokens := by
  have hx := lt_of_getElem?_some h
  have hswap := sum_swap_at (fun j => (refAtL (updRef l x f) j).num_tokens)
    (fun j => (refAtL l j).num_tokens) hx
    (fun j _ hne => by simp only [refAtL_updRef_ne f hne])
  simp only [refAtL_updRef_self f h, refAtL_of_some h] at hswap
  unfold listTokens
  rw [updRef_length]
  omega

theorem childBL_congr {l l' : List RefInfo} (hlen : l'.length = l.length)
    (h : ∀ j, j < l.length → (refAtL l' j).parent = (refAtL l j).parent ∧
      (refAtL l' j).state = (refAtL l j).state) (i : Nat) :
    childBL l' i = childBL l i := by
  unfold childBL
  rw [hlen]
  refine Finset.sum_congr rfl (fun j hj => ?_)
  have hj' := Finset.mem_range.mp hj
  unfold childTermL borrowFlag
  rw [(h j hj').1, (h j hj').2]

theorem childBL_swap_at {l l' : List RefInfo} {t : Nat} (hlen : l'.length = l.length)
    (ht : t < l.length)
    (h : ∀ j, j < l.length → j ≠ t →
      (refAtL l' j).parent = (refAtL l j).parent ∧
      (refAtL l' j).state = (refAtL l j).state) (i : Nat) :
    childBL l' i + childTermL l i t = childBL l i + childTermL l' i t := by
  unfold childBL
  rw [hlen]
  refine sum_swap_at _ _ ht (fun j hj hne => ?_)
  unfold childTermL borrowFlag
  rw [(h j hj hne).1, (h j hj hne).2]

/-! ### Success-shape inversions of the operations -/

theorem create_ref_ok {s : TokenMachine} {p : Nat} {k : RefKind}
    {res : Nat × TokenMachine} (h : create_ref s p k = .ok res) :
    ∃ pinfo, s.ref_info[p]? = some pinfo ∧
      ¬(pinfo.kind = .SharedReadOnly ∧ k ≠ .SharedReadOnly) ∧
      res = (s.ref_info.length, { s with ref_info := s.ref_info ++ [freshInfo p k] }) := by
  unfold create_ref at h
  split at h
  · exact absurd h (by simp)
  next pinfo heq =>
    split at h
    · exact absurd h (by simp)
    next hnk =>
      refine ⟨pinfo, heq, hnk, ?_⟩
      injection h with h'
      exact h'.symm

theorem borrow_token_ok {s : TokenMachine} {t : Nat} {s' : TokenMachine}
    (h : borrow_token s t = .ok s') :
    ∃ ti si, s.ref_info[t]? = some ti ∧ s.ref_info[ti.parent]? = some si ∧
      si.num_tokens ≠ 0 ∧ ti.state = .Created ∧
      s' = { s with
             ref_info := updRef (updRef (updRef s.ref_info ti.parent decTok) t incTok) t
                           (setSt .Borrowing) } := by
  unfold borrow_token at h
  split at h
  · exact absurd h (by simp)
  next ti heq1 =>
    split at h
    · exact absurd h (by simp)
    next si heq2 =>
      split at h
      · exact absurd h (by simp)
      next hne =>
        split at h
        · refine ⟨ti, si, heq1, heq2, hne, ?_, ?_⟩
          · assumption
          · injection h with h'
            exact h'.symm
        · exact absurd h (by simp)
        · exact absurd h (by simp)

theorem return_token_ok {s : TokenMachine} {x : Nat} {s' : TokenMachine}
    (h : return_token s x = .ok s') :
    ∃ si, s.ref_info[x]? = some si ∧ si.num_tokens = 1 ∧ si.num_splits = 0 ∧
      (∃ pi, s.ref_info[si.parent]? = some pi) ∧
      s' = { s with
             ref_info := updRef (updRef (updRef s.ref_info x decTok) si.parent incTok) x
                           (setSt .Dead) } := by
  unfold return_token at h
  split at h
  · exact absurd h (by simp)
  next si heq =>
    split at h
    · exact absurd h (by simp)
    next h0 =>
      split at h
      · exact absurd h (by simp)
      next hsp =>
        split at h
        · exact absurd h (by simp)
        next h1 =>
          split at h
          · exact absurd h (by simp)
          next pi heqp =>
            refine ⟨si, heq, by omega, by omega, ⟨pi, heqp⟩, ?_⟩
            injection h with h'
            exact h'.symm

theorem dup_token_ok {s : TokenMachine} {x : Nat} {s' : TokenMachine}
    (h : dup_token s x = .ok s') :
    ∃ si, s.ref_info[x]? = some si ∧ si.num_tokens ≠ 0 ∧
      s' = { s with
             token_count := s.token_count + 1,
             ref_info := updRef s.ref_info x bumpSplit } := by
  unfold dup_token at h
  split at h
  · exact absurd h (by simp)
  next si heq =>
    split at h
    · exact absurd h (by simp)
    next h0 =>
      refine ⟨si, heq, h0, ?_⟩
      injection h with h'
      exact h'.symm

theorem merge_token_ok {s : TokenMachine} {x : Nat} {s' : TokenMachine}
    (h : merge_token s x = .ok s') :
    ∃ si, s.ref_info[x]? = some si ∧ 1 < si.num_tokens ∧ si.num_splits ≠ 0 ∧
      s' = { s with
             token_count := s.token_count - 1,
             ref_info := updRef s.ref_info x dropSplit } := by
  unfold merge_token at h
  split at h
  · exact absurd h (by simp)
  next si heq =>
    split at h
    · exact absurd h (by simp)
    next h1 =>
      split at h
      · exact absurd h (by simp)
      next h0 =>
        refine ⟨si, heq, by omega, h0, ?_⟩
        injection h with h'
        exact h'.symm

theorem get_token_info_ok_some {s : TokenMachine} {x : Nat} {info : TokenInfo}
    (h : get_token_info s x = .ok (some info)) :
    ∃ si, s.ref_info[x]? = some si ∧ si.num_tokens ≠ 0 ∧ si.state ≠ .Dead ∧
      info = { exclusivity := if s.token_count = 1 then .Exclusive else .Shared,
               perms := s.token_perms } := by
  unfold get_token_info at h
  split at h
  · exact absurd h (by simp)
  next si heq =>
    split at h
    · exact absurd h (by simp)
    next h0 =>
      split at h
      · exact absurd h (by simp)
      next hd =>
        refine ⟨si, heq, h0, hd, ?_⟩
        injection h with h'
        injection h' with h''
        exact h''.symm

theorem set_token_perms_ok {s : TokenMachine} {x : Nat} {m : TokenPermissions}
    {s' : TokenMachine} (h : set_token_perms s x m = .ok s') :
    s.token_count = 1 ∧
      (∃ si, s.ref_info[x]? = some si ∧ si.num_tokens ≠ 0 ∧ si.state ≠ .Dead) ∧
      s' = { s with token_perms := m } := by
  unfold set_token_perms at h
  split at h
  · exact absurd h (by simp)
  · exact absurd h (by simp)
  next info heq =>
    split at h
    · exact absurd h (by simp)
    next hexcl =>
      obtain ⟨si, hsi, h0, hd, hinfo⟩ := get_token_info_ok_some heq
      have hc : s.token_count = 1 := by
        by_contra hc
        rw [hinfo] at hexcl
        simp [hc] at hexcl
      refine ⟨hc, ⟨si, hsi, h0, hd⟩, ?_⟩
      injection h with h'
      exact h'.symm

theorem use_token_ok_eq {s : TokenMachine} {x : Nat} {a : AccessKind}
    {s' : TokenMachine} (h : use_token s x a = .ok s') : s' = s := by
  unfold use_token at h
  split at h
  · exact absurd h (by simp)
  · exact absurd h (by simp)
  next info heq =>
    split at h
    · exact absurd h (by simp)
    next si heqs =>
      obtain ⟨kind, st, par, nt, ns⟩ := si
      cases kind <;> cases a <;> dsimp only at h <;> (try split at h) <;>
        (try (exact Except.noConfusion h)) <;>
        (injection h with h'; exact h'.symm)

/-! ### The inductive invariant of reachable states -/

theorem refAtL_append_left {l l2 : List RefInfo} {j : Nat} (hj : j < l.length) :
    refAtL (l ++ l2) j = refAtL l j := by
  simp [refAtL, List.getElem?_append_left hj]

theorem refAtL_append_self (l : List RefInfo) (r : RefInfo) :
    refAtL (l ++ [r]) l.length = r := by
  simp [refAtL]

/-- The coupled state invariant of the machine, closed under every successful
operation.  `ledger` is the per-reference flow balance: a non-root reference
has received its one grant iff its state is not Created and has returned it
iff its state is Dead, so its held units plus the Borrowing flags of its
children balance against its own Borrowing flag plus its outstanding splits;
for the root the grant is the initial token, and the root's self-loop return
feeds the unit back to itself, leaving the constant 1. -/
structure Inv (s : TokenMachine) : Prop where
  pos : 0 < s.ref_info.length
  root_parent : (refAt s 0).parent = 0
  parent_lt : ∀ i, 0 < i → i < s.ref_info.length → (refAt s i).parent < i
  root_state : (refAt s 0).state ≠ .Created
  created_zero : ∀ i, i < s.ref_info.length → (refAt s i).state = .Created →
    (refAt s i).num_tokens = 0 ∧ (refAt s i).num_splits = 0
  dead_zero : ∀ i, 0 < i → i < s.ref_info.length → (refAt s i).state = .Dead →
    (refAt s i).num_tokens = 0 ∧ (refAt s i).num_splits = 0
  ledger : ∀ i, i < s.ref_info.length →
    (refAt s i).num_tokens + childB s i
      = (if i = 0 then 1 else borrowFlag (refAt s i)) + (refAt s i).num_splits
  conserve : totalTokens s = s.token_count

theorem inv_init : Inv mInit := by
  refine ⟨by decide, by decide, ?_, by decide, by decide, ?_, by decide, by decide⟩
  · intro i h1 h2
    have hl : mInit.ref_info.length = 1 := rfl
    omega
  · intro i h1 h2
    have hl : mInit.ref_info.length = 1 := rfl
    omega

theorem inv_create {s : TokenMachine} {p : Nat} {k : RefKind}
    {res : Nat × TokenMachine} (hs : Inv s) (h : create_ref s p k = .ok res) :
    Inv res.2 := by
  obtain ⟨pinfo, hp, _, hres⟩ := create_ref_ok h
  have hpn : p < s.ref_info.length := lt_of_getElem?_some hp
  have hpos : 0 < s.ref_info.length := hs.pos
  obtain ⟨n, hn⟩ : ∃ n, s.ref_info.length = n := ⟨_, rfl⟩
  have hres2 : res.2 = { s with ref_info := s.ref_info ++ [freshInfo p k] } := by rw [hres]
  have hlen : (s.ref_info ++ [freshInfo p k]).length = n + 1 := by simp [hn]
  have hkeep : ∀ j, j < n → refAtL (s.ref_info ++ [freshInfo p k]) j = refAtL s.ref_info j := by
    intro j hj
    exact refAtL_append_left (by omega)
  have hnew : refAtL (s.ref_info ++ [freshInfo p k]) n = freshInfo p k := by
    rw [← hn]
    exact refAtL_append_self s.ref_info (freshInfo p k)
  have hchild : ∀ i, childBL (s.ref_info ++ [freshInfo p k]) i = childBL s.ref_info i := by
    intro i
    unfold childBL
    rw [hlen, hn, Finset.sum_range_succ]
    have hlast : childTermL (s.ref_info ++ [freshInfo p k]) i n = 0 := by
      unfold childTermL
      rw [hnew]
      simp [freshInfo, borrowFlag]
    rw [hlast]
    simp only [Nat.add_zero]
    refine Finset.sum_congr rfl (fun j hj => ?_)
    have hj' := Finset.mem_range.mp hj
    unfold childTermL borrowFlag
    rw [hkeep j hj']
  have hpar_ne : ∀ j, j < n → (refAtL s.ref_info j).parent ≠ n := by
    intro j hj
    rcases Nat.eq_zero_or_pos j with hj0 | hj0
    · subst hj0
      have h0 : (refAtL s.ref_info 0).parent = 0 := hs.root_parent
      omega
    · have h1 : (refAtL s.ref_info j).parent < j := hs.parent_lt j hj0 (by omega)
      omega
  rw [hres2]
  refine ⟨?_, ?_, ?_, ?_, ?_, ?_, ?_, ?_⟩
  · show 0 < (s.ref_info ++ [freshInfo p k]).length
    omega
  · show (refAtL (s.ref_info ++ [freshInfo p k]) 0).parent = 0
    rw [hkeep 0 (by omega)]
    exact hs.root_parent
  · intro i hi0 hi
    show (refAtL (s.ref_info ++ [freshInfo p k]) i).parent < i
    rw [hlen] at hi
    rcases Nat.lt_or_ge i n with hin | hin
    · rw [hkeep i hin]
      exact hs.parent_lt i hi0 (by omega)
    · have : i = n := by omega
      subst this
      rw [hnew]
      show p < i
      omega
  · show (refAtL (s.ref_info ++ [freshInfo p k]) 0).state ≠ .Created
    rw [hkeep 0 (by omega)]
    exact hs.root_state
  · intro i hi hcr
    rw [hlen] at hi
    rcases Nat.lt_or_ge i n with hin | hin
    · rw [show refAt { s with ref_info := s.ref_info ++ [freshInfo p k] } i
          = refAtL (s.ref_info ++ [freshInfo p k]) i from rfl, hkeep i hin] at hcr ⊢
      exact hs.created_zero i (by omega) hcr
    · have : i = n := by omega
      subst this
      rw [show refAt { s with ref_info := s.ref_info ++ [freshInfo p k] } i
          = refAtL (s.ref_info ++ [freshInfo p k]) i from rfl, hnew]
      simp [freshInfo]
  · intro i hi0 hi hdd
    rw [hlen] at hi
    rcases Nat.lt_or_ge i n with hin | hin
    · rw [show refAt { s with ref_info := s.ref_info ++ [freshInfo p k] } i
          = refAtL (s.ref_info ++ [freshInfo p k]) i from rfl, hkeep i hin] at hdd ⊢
      exact hs.dead_zero i hi0 (by omega) hdd
    · have : i = n := by omega
      subst this
      rw [show refAt { s with ref_info := s.ref_info ++ [freshInfo p k] } i
          = refAtL (s.ref_info ++ [freshInfo p k]) i from rfl, hnew] at hdd
      exact absurd hdd (by simp [freshInfo])
  · intro i hi
    rw [hlen] at hi
    show (refAtL (s.ref_info ++ [freshInfo p k]) i).num_tokens
        + childBL (s.ref_info ++ [freshInfo p k]) i
      = (if i = 0 then 1 else borrowFlag (refAtL (s.ref_info ++ [freshInfo p k]) i))
        + (refAtL (s.ref_info ++ [freshInfo p k]) i).num_splits
    rw [hchild i]
    rcases Nat.lt_or_ge i n with hin | hin
    · rw [hkeep i hin]
      exact hs.ledger i (by omega)
    · have : i = n := by omega
      subst this
      rw [hnew]
      have hzero : childBL s.ref_info i = 0 := by
        unfold childBL childTermL
        refine Finset.sum_eq_zero (fun j hj => ?_)
        have hj' := Finset.mem_range.mp hj
        rw [hn] at hj'
        simp [hpar_ne j hj']
      rw [hzero]
      have : i ≠ 0 := by omega
      simp [freshInfo, borrowFlag, this]
  · show listTokens (s.ref_info ++ [freshInfo p k]) = s.token_count
    have heq : listTokens (s.ref_info ++ [freshInfo p k]) = listTokens s.ref_info := by
      unfold listTokens
      rw [hlen, hn, Finset.sum_range_succ, hnew,
        show (freshInfo p k).num_tokens = 0 from rfl, Nat.add_zero]
      refine Finset.sum_congr rfl (fun j hj => ?_)
      have hj' := Finset.mem_range.mp hj
      rw [hkeep j hj']
    rw [heq]
    exact hs.conserve

theorem inv_split {s : TokenMachine} {x : Nat} {s' : TokenMachine}
    (hs : Inv s) (h : dup_token s x = .ok s') : Inv s' := by
  obtain ⟨si, hx, h0, hs'⟩ := dup_token_ok h
  have hxn : x < s.ref_info.length := lt_of_getElem?_some hx
  have hlen : (updRef s.ref_info x bumpSplit).length = s.ref_info.length := updRef_length ..
  have hat : refAtL (updRef s.ref_info x bumpSplit) x = bumpSplit si := refAtL_updRef_self _ hx
  have hne : ∀ j, j ≠ x → refAtL (updRef s.ref_info x bumpSplit) j = refAtL s.ref_info j :=
    fun j hj => refAtL_updRef_ne _ hj
  have hsi : refAtL s.ref_info x = si := refAtL_of_some hx
  have hps : ∀ j, (refAtL (updRef s.ref_info x bumpSplit) j).parent
        = (refAtL s.ref_info j).parent ∧
      (refAtL (updRef s.ref_info x bumpSplit) j).state = (refAtL s.ref_info j).state := by
    intro j
    rcases eq_or_ne j x with rfl | hjx
    · rw [hat, hsi]
      exact ⟨rfl, rfl⟩
    · rw [hne j hjx]
      exact ⟨rfl, rfl⟩
  have hchild : ∀ i, childBL (updRef s.ref_info x bumpSplit) i = childBL s.ref_info i :=
    childBL_congr hlen (fun j _ => hps j)
  have htok : listTokens (updRef s.ref_info x bumpSplit) = listTokens s.ref_info + 1 := by
    have hswap := listTokens_updRef bumpSplit hx
    have hb : (bumpSplit si).num_tokens = si.num_tokens + 1 := rfl
    omega
  rw [hs']
  refine ⟨?_, ?_, ?_, ?_, ?_, ?_, ?_, ?_⟩
  · show 0 < (updRef s.ref_info x bumpSplit).length
    have := hs.pos
    omega
  · show (refAtL (updRef s.ref_info x bumpSplit) 0).parent = 0
    rw [(hps 0).1]
    exact hs.root_parent
  · intro i hi0 hi
    show (refAtL (updRef s.ref_info x bumpSplit) i).parent < i
    rw [hlen] at hi
    rw [(hps i).1]
    exact hs.parent_lt i hi0 hi
  · show (refAtL (updRef s.ref_info x bumpSplit) 0).state ≠ .Created
    rw [(hps 0).2]
    exact hs.root_state
  · intro i hi hcr
    rw [hlen] at hi
    have hcr' : (refAtL (updRef s.ref_info x bumpSplit) i).state = .Created := hcr
    show (refAtL (updRef s.ref_info x bumpSplit) i).num_tokens = 0 ∧
      (refAtL (updRef s.ref_info x bumpSplit) i).num_splits = 0
    rcases eq_or_ne i x with rfl | hix
    · exfalso
      rw [hat] at hcr'
      have hcz := hs.created_zero i hi (by rw [refAt_def, hsi]; exact hcr')
      rw [refAt_def, hsi] at hcz
      omega
    · rw [hne i hix] at hcr' ⊢
      exact hs.created_zero i hi hcr'
  · intro i hi0 hi hdd
    rw [hlen] at hi
    have hdd' : (refAtL (updRef s.ref_info x bumpSplit) i).state = .Dead := hdd
    show (refAtL (updRef s.ref_info x bumpSplit) i).num_tokens = 0 ∧
      (refAtL (updRef s.ref_info x bumpSplit) i).num_splits = 0
    rcases eq_or_ne i x with rfl | hix
    · exfalso
      rw [hat] at hdd'
      have hdz := hs.dead_zero i hi0 hi (by rw [refAt_def, hsi]; exact hdd')
      rw [refAt_def, hsi] at hdz
      omega
    · rw [hne i hix] at hdd' ⊢
      exact hs.dead_zero i hi0 hi hdd'
  · intro i hi
    rw [hlen] at hi
    show (refAtL (updRef s.ref_info x bumpSplit) i).num_tokens
        + childBL (updRef s.ref_info x bumpSplit) i
      = (if i = 0 then 1 else borrowFlag (refAtL (updRef s.ref_info x bumpSplit) i))
        + (refAtL (updRef s.ref_info x bumpSplit) i).num_splits
    rw [hchild i]
    have hold := hs.ledger i hi
    rcases eq_or_ne i x with rfl | hix
    · rw [hat]
      rw [refAt_def, hsi, childB_def] at hold
      have hb1 : (bumpSplit si).num_tokens = si.num_tokens + 1 := rfl
      have hb2 : (bumpSplit si).num_splits = si.num_splits + 1 := rfl
      have hb3 : borrowFlag (bumpSplit si) = borrowFlag si := rfl
      rw [hb1, hb2, hb3]
      rcases eq_or_ne i 0 with rfl | hi0
      · rw [if_pos rfl] at hold ⊢
        omega
      · rw [if_neg hi0] at hold ⊢
        omega
    · rw [hne i hix]
      rw [refAt_def, childB_def] at hold
      exact hold
  · show listTokens (updRef s.ref_info x bumpSplit) = s.token_count + 1
    have hcons := hs.conserve
    rw [totalTokens_def] at hcons
    omega

theorem inv_merge {s : TokenMachine} {x : Nat} {s' : TokenMachine}
    (hs : Inv s) (h : merge_token s x = .ok s') : Inv s' := by
  obtain ⟨si, hx, h1, h2, hs'⟩ := merge_token_ok h
  have hxn : x < s.ref_info.length := lt_of_getElem?_some hx
  have hlen : (updRef s.ref_info x dropSplit).length = s.ref_info.length := updRef_length ..
  have hat : refAtL (updRef s.ref_info x dropSplit) x = dropSplit si := refAtL_updRef_self _ hx
  have hne : ∀ j, j ≠ x → refAtL (updRef s.ref_info x dropSplit) j = refAtL s.ref_info j :=
    fun j hj => refAtL_updRef_ne _ hj
  have hsi : refAtL s.ref_info x = si := refAtL_of_some hx
  have hps : ∀ j, (refAtL (updRef s.ref_info x dropSplit) j).parent
        = (refAtL s.ref_info j).parent ∧
      (refAtL (updRef s.ref_info x dropSplit) j).state = (refAtL s.ref_info j).state := by
    intro j
    rcases eq_or_ne j x with rfl | hjx
    · rw [hat, hsi]
      exact ⟨rfl, rfl⟩
    · rw [hne j hjx]
      exact ⟨rfl, rfl⟩
  have hchild : ∀ i, childBL (updRef s.ref_info x dropSplit) i = childBL s.ref_info i :=
    childBL_congr hlen (fun j _ => hps j)
  have htok : listTokens (updRef s.ref_info x dropSplit) + 1 = listTokens s.ref_info := by
    have hswap := listTokens_updRef dropSplit hx
    have hb : (dropSplit si).num_tokens = si.num_tokens - 1 := rfl
    omega
  rw [hs']
  refine ⟨?_, ?_, ?_, ?_, ?_, ?_, ?_, ?_⟩
  · show 0 < (updRef s.ref_info x dropSplit).length
    have := hs.pos
    omega
  · show (refAtL (updRef s.ref_info x dropSplit) 0).parent = 0
    rw [(hps 0).1]
    exact hs.root_parent
  · intro i hi0 hi
    show (refAtL (updRef s.ref_info x dropSplit) i).parent < i
    rw [hlen] at hi
    rw [(hps i).1]
    exact hs.parent_lt i hi0 hi
  · show (refAtL (updRef s.ref_info x dropSplit) 0).state ≠ .Created
    rw [(hps 0).2]
    exact hs.root_state
  · intro i hi hcr
    rw [hlen] at hi
    have hcr' : (refAtL (updRef s.ref_info x dropSplit) i).state = .Created := hcr
    show (refAtL (updRef s.ref_info x dropSplit) i).num_tokens = 0 ∧
      (refAtL (updRef s.ref_info x dropSplit) i).num_splits = 0
    rcases eq_or_ne i x with rfl | hix
    · exfalso
      rw [hat] at hcr'
      have hcz := hs.created_zero i hi (by rw [refAt_def, hsi]; exact hcr')
      rw [refAt_def, hsi] at hcz
      omega
    · rw [hne i hix] at hcr' ⊢
      exact hs.created_zero i hi hcr'
  · intro i hi0 hi hdd
    rw [hlen] at hi
    have hdd' : (refAtL (updRef s.ref_info x dropSplit) i).state = .Dead := hdd
    show (refAtL (updRef s.ref_info x dropSplit) i).num_tokens = 0 ∧
      (refAtL (updRef s.ref_info x dropSplit) i).num_splits = 0
    rcases eq_or_ne i x with rfl | hix
    · exfalso
      rw [hat] at hdd'
      have hdz := hs.dead_zero i hi0 hi (by rw [refAt_def, hsi]; exact hdd')
      rw [refAt_def, hsi] at hdz
      omega
    · rw [hne i hix] at hdd' ⊢
      exact hs.dead_zero i hi0 hi hdd'
  · intro i hi
    rw [hlen] at hi
    show (refAtL (updRef s.ref_info x dropSplit) i).num_tokens
        + childBL (updRef s.ref_info x dropSplit) i
      = (if i = 0 then 1 else borrowFlag (refAtL (updRef s.ref_info x dropSplit) i))
        + (refAtL (updRef s.ref_info x dropSplit) i).num_splits
    rw [hchild i]
    have hold := hs.ledger i hi
    rcases eq_or_ne i x with rfl | hix
    · rw [hat]
      rw [refAt_def, hsi, childB_def] at hold
      have hb1 : (dropSplit si).num_tokens = si.num_tokens - 1 := rfl
      have hb2 : (dropSplit si).num_splits = si.num_splits - 1 := rfl
      have hb3 : borrowFlag (dropSplit si) = borrowFlag si := rfl
      rw [hb1, hb2, hb3]
      rcases eq_or_ne i 0 with rfl | hi0
      · rw [if_pos rfl] at hold ⊢
        omega
      · rw [if_neg hi0] at hold ⊢
        omega
    · rw [hne i hix]
      rw [refAt_def, childB_def] at hold
      exact hold
  · show listTokens (updRef s.ref_info x dropSplit) = s.token_count - 1
    have hcons := hs.conserve
    rw [totalTokens_def] at hcons
    omega

theorem inv_setPerms {s : TokenMachine} {x : Nat} {m : TokenPermissions} {s' : TokenMachine}
    (hs : Inv s) (h : set_token_perms s x m = .ok s') : Inv s' := by
  obtain ⟨_, _, hs'⟩ := set_token_perms_ok h
  rw [hs']
  exact ⟨hs.pos, hs.root_parent, hs.parent_lt, hs.root_state, hs.created_zero,
    hs.dead_zero, hs.ledger, hs.conserve⟩

theorem inv_use {s : TokenMachine} {x : Nat} {a : AccessKind} {s' : TokenMachine}
    (hs : Inv s) (h : use_token s x a = .ok s') : Inv s' := by
  rw [use_token_ok_eq h]
  exact hs

theorem inv_lend {s : TokenMachine} {t : Nat} {s' : TokenMachine}
    (hs : Inv s) (h : borrow_token s t = .ok s') : Inv s' := by
  obtain ⟨ti, si, ht, hp, h0, hcrst, hs'⟩ := borrow_token_ok h
  have htn : t < s.ref_info.length := lt_of_getElem?_some ht
  have hpn : ti.parent < s.ref_info.length := lt_of_getElem?_some hp
  have hti : refAtL s.ref_info t = ti := refAtL_of_some ht
  have hsi : refAtL s.ref_info ti.parent = si := refAtL_of_some hp
  have ht0 : t ≠ 0 := by
    intro e
    subst e
    exact hs.root_state (by rw [refAt_def, hti]; exact hcrst)
  have hpt : ti.parent < t := by
    have hv := hs.parent_lt t (Nat.pos_of_ne_zero ht0) htn
    rw [refAt_def, hti] at hv
    exact hv
  have hptne : ti.parent ≠ t := by omega
  have htpne : t ≠ ti.parent := by omega
  have e1 : (updRef s.ref_info ti.parent decTok)[t]? = some ti := by
    rw [getElem?_updRef_ne _ htpne]
    exact ht
  have e3 : (updRef (updRef s.ref_info ti.parent decTok) t incTok)[t]? = some (incTok ti) :=
    getElem?_updRef_self _ e1
  have hAt : refAtL (updRef (updRef (updRef s.ref_info ti.parent decTok) t incTok) t
      (setSt .Borrowing)) t = setSt .Borrowing (incTok ti) := refAtL_updRef_self _ e3
  have hAp : refAtL (updRef (updRef (updRef s.ref_info ti.parent decTok) t incTok) t
      (setSt .Borrowing)) ti.parent = decTok si := by
    rw [refAtL_updRef_ne _ hptne, refAtL_updRef_ne _ hptne]
    exact refAtL_updRef_self _ hp
  have hother : ∀ j, j ≠ t → j ≠ ti.parent →
      refAtL (updRef (updRef (updRef s.ref_info ti.parent decTok) t incTok) t
        (setSt .Borrowing)) j = refAtL s.ref_info j := by
    intro j hjt hjp
    rw [refAtL_updRef_ne _ hjt, refAtL_updRef_ne _ hjt, refAtL_updRef_ne _ hjp]
  have hlen : (updRef (updRef (updRef s.ref_info ti.parent decTok) t incTok) t
      (setSt .Borrowing)).length = s.ref_info.length := by
    rw [updRef_length, updRef_length, updRef_length]
  have hpar : ∀ j, (refAtL (updRef (updRef (updRef s.ref_info ti.parent decTok) t incTok) t
      (setSt .Borrowing)) j).parent = (refAtL s.ref_info j).parent := by
    intro j
    rcases eq_or_ne j t with rfl | hjt
    · rw [hAt, hti]
      rfl
    · rcases eq_or_ne j ti.parent with rfl | hjp
      · rw [hAp, hsi]
        rfl
      · rw [hother j hjt hjp]
  have hstne : ∀ j, j ≠ t → (refAtL (updRef (updRef (updRef s.ref_info ti.parent decTok) t
      incTok) t (setSt .Borrowing)) j).state = (refAtL s.ref_info j).state := by
    intro j hjt
    rcases eq_or_ne j ti.parent with rfl | hjp
    · rw [hAp, hsi]
      rfl
    · rw [hother j hjt hjp]
  have hchild := childBL_swap_at hlen htn (fun j _ hjt => ⟨hpar j, hstne j hjt⟩)
  have hterm_old : ∀ i, childTermL s.ref_info i t = 0 := by
    intro i
    unfold childTermL borrowFlag
    rw [hti, hcrst]
    simp
  have hterm_new : ∀ i, childTermL (updRef (updRef (updRef s.ref_info ti.parent decTok) t
      incTok) t (setSt .Borrowing)) i t = if ti.parent = i ∧ t ≠ i then 1 else 0 := by
    intro i
    unfold childTermL borrowFlag
    rw [hAt]
    simp [setSt, incTok]
  have hch : ∀ i, childBL (updRef (updRef (updRef s.ref_info ti.parent decTok) t incTok) t
      (setSt .Borrowing)) i = childBL s.ref_info i + (if ti.parent = i ∧ t ≠ i then 1 else 0)
      := by
    intro i
    have hc := hchild i
    rw [hterm_old, hterm_new] at hc
    omega
  have htok : listTokens (updRef (updRef (updRef s.ref_info ti.parent decTok) t incTok) t
      (setSt .Borrowing)) = listTokens s.ref_info := by
    have f0 := listTokens_updRef decTok hp
    have f1 := listTokens_updRef incTok e1
    have f2 := listTokens_updRef (setSt .Borrowing) e3
    have d1 : (decTok si).num_tokens = si.num_tokens - 1 := rfl
    have d2 : (incTok ti).num_tokens = ti.num_tokens + 1 := rfl
    have d3 : (setSt .Borrowing (incTok ti)).num_tokens = ti.num_tokens + 1 := rfl
    omega
  rw [hs']
  refine ⟨?_, ?_, ?_, ?_, ?_, ?_, ?_, ?_⟩
  · show 0 < (updRef (updRef (updRef s.ref_info ti.parent decTok) t incTok) t
      (setSt .Borrowing)).length
    have := hs.pos
    omega
  · show (refAtL (updRef (updRef (updRef s.ref_info ti.parent decTok) t incTok) t
      (setSt .Borrowing)) 0).parent = 0
    rw [hpar 0]
    exact hs.root_parent
  · intro i hi0 hi
    show (refAtL (updRef (updRef (updRef s.ref_info ti.parent decTok) t incTok) t
      (setSt .Borrowing)) i).parent < i
    rw [hlen] at hi
    rw [hpar i]
    exact hs.parent_lt i hi0 hi
  · show (refAtL (updRef (updRef (updRef s.ref_info ti.parent decTok) t incTok) t
      (setSt .Borrowing)) 0).state ≠ .Created
    rw [hstne 0 (Ne.symm ht0)]
    exact hs.root_state
  · intro i hi hcr
    rw [hlen] at hi
    have hcr' : (refAtL (updRef (updRef (updRef s.ref_info ti.parent decTok) t incTok) t
      (setSt .Borrowing)) i).state = .Created := hcr
    show (refAtL (updRef (updRef (updRef s.ref_info ti.parent decTok) t incTok) t
        (setSt .Borrowing)) i).num_tokens = 0 ∧
      (refAtL (updRef (updRef (updRef s.ref_info ti.parent decTok) t incTok) t
        (setSt .Borrowing)) i).num_splits = 0
    rcases eq_or_ne i t with rfl | hit
    · rw [hAt] at hcr'
      exact absurd hcr' (by simp [setSt])
    · rcases eq_or_ne i ti.parent with rfl | hip
      · exfalso
        rw [hAp] at hcr'
        have hsc : si.state = .Created := hcr'
        have hcz := hs.created_zero ti.parent hi (by rw [refAt_def, hsi]; exact hsc)
        rw [refAt_def, hsi] at hcz
        omega
      · rw [hother i hit hip] at hcr' ⊢
        exact hs.created_zero i hi hcr'
  · intro i hi0 hi hdd
    rw [hlen] at hi
    have hdd' : (refAtL (updRef (updRef (updRef s.ref_info ti.parent decTok) t incTok) t
      (setSt .Borrowing)) i).state = .Dead := hdd
    show (refAtL (updRef (updRef (updRef s.ref_info ti.parent decTok) t incTok) t
        (setSt .Borrowing)) i).num_tokens = 0 ∧
      (refAtL (updRef (updRef (updRef s.ref_info ti.parent decTok) t incTok) t
        (setSt .Borrowing)) i).num_splits = 0
    rcases eq_or_ne i t with rfl | hit
    · rw [hAt] at hdd'
      exact absurd hdd' (by simp [setSt])
    · rcases eq_or_ne i ti.parent with rfl | hip
      · exfalso
        rw [hAp] at hdd'
        have hsd : si.state = .Dead := hdd'
        have hdz := hs.dead_zero ti.parent hi0 hi (by rw [refAt_def, hsi]; exact hsd)
        rw [refAt_def, hsi] at hdz
        omega
      · rw [hother i hit hip] at hdd' ⊢
        exact hs.dead_zero i hi0 hi hdd'
  · intro i hi
    rw [hlen] at hi
    show (refAtL (updRef (updRef (updRef s.ref_info ti.parent decTok) t incTok) t
        (setSt .Borrowing)) i).num_tokens
        + childBL (updRef (updRef (updRef s.ref_info ti.parent decTok) t incTok) t
          (setSt .Borrowing)) i
      = (if i = 0 then 1
          else borrowFlag (refAtL (updRef (updRef (updRef s.ref_info ti.parent decTok) t
            incTok) t (setSt .Borrowing)) i))
        + (refAtL (updRef (updRef (updRef s.ref_info ti.parent decTok) t incTok) t
          (setSt .Borrowing)) i).num_splits
    rw [hch i]
    have hold := hs.ledger i hi
    rw [refAt_def, childB_def] at hold
    rcases eq_or_ne i t with rfl | hit
    · rw [hAt]
      rw [hti] at hold
      rw [if_neg (by simp : ¬(ti.parent = i ∧ i ≠ i))]
      have a1 : (setSt .Borrowing (incTok ti)).num_tokens = ti.num_tokens + 1 := rfl
      have a2 : (setSt .Borrowing (incTok ti)).num_splits = ti.num_splits := rfl
      have a3 : borrowFlag (setSt .Borrowing (incTok ti)) = 1 := rfl
      rw [a1, a2, a3, if_neg ht0]
      rw [if_neg ht0] at hold
      have hf : borrowFlag ti = 0 := by
        unfold borrowFlag
        rw [hcrst]
        rfl
      rw [hf] at hold
      omega
    · rcases eq_or_ne i ti.parent with rfl | hip
      · rw [hAp]
        rw [hsi] at hold
        rw [if_pos ⟨rfl, Ne.symm hit⟩]
        have a1 : (decTok si).num_tokens = si.num_tokens - 1 := rfl
        have a2 : (decTok si).num_splits = si.num_splits := rfl
        have a3 : borrowFlag (decTok si) = borrowFlag si := rfl
        rw [a1, a2, a3]
        rcases eq_or_ne ti.parent 0 with hp0 | hp0
        · rw [if_pos hp0] at hold ⊢
          omega
        · rw [if_neg hp0] at hold ⊢
          omega
      · rw [hother i hit hip]
        rw [if_neg (fun hco => hip hco.1.symm)]
        omega
  · show listTokens (updRef (updRef (updRef s.ref_info ti.parent decTok) t incTok) t
      (setSt .Borrowing)) = s.token_count
    have hcons := hs.conserve
    rw [totalTokens_def] at hcons
    omega

theorem inv_ret {s : TokenMachine} {x : Nat} {s' : TokenMachine}
    (hs : Inv s) (h : return_token s x = .ok s') : Inv s' := by
  obtain ⟨si, hx, h1, hsp2, ⟨pi, hpi⟩, hs'⟩ := return_token_ok h
  have hxn : x < s.ref_info.length := lt_of_getElem?_some hx
  have hpn : si.parent < s.ref_info.length := lt_of_getElem?_some hpi
  have hsi : refAtL s.ref_info x = si := refAtL_of_some hx
  have hpi' : refAtL s.ref_info si.parent = pi := refAtL_of_some hpi
  rcases eq_or_ne x 0 with rfl | hx0ne
  -- the root returning to itself: the unit comes straight back, the root dies
  · have hsp0 : si.parent = 0 := by
      have hr := hs.root_parent
      rw [refAt_def, hsi] at hr
      exact hr
    rw [hsp0] at hs'
    have e1 : (updRef s.ref_info 0 decTok)[0]? = some (decTok si) :=
      getElem?_updRef_self _ hx
    have e2 : (updRef (updRef s.ref_info 0 decTok) 0 incTok)[0]?
        = some (incTok (decTok si)) := getElem?_updRef_self _ e1
    have hA : refAtL (updRef (updRef (updRef s.ref_info 0 decTok) 0 incTok) 0
        (setSt .Dead)) 0 = setSt .Dead (incTok (decTok si)) := refAtL_updRef_self _ e2
    have hother : ∀ j, j ≠ 0 →
        refAtL (updRef (updRef (updRef s.ref_info 0 decTok) 0 incTok) 0
          (setSt .Dead)) j = refAtL s.ref_info j := by
      intro j hj
      rw [refAtL_updRef_ne _ hj, refAtL_updRef_ne _ hj, refAtL_updRef_ne _ hj]
    have hlen : (updRef (updRef (updRef s.ref_info 0 decTok) 0 incTok) 0
        (setSt .Dead)).length = s.ref_info.length := by
      rw [updRef_length, updRef_length, updRef_length]
    have hpar : ∀ j, (refAtL (updRef (updRef (updRef s.ref_info 0 decTok) 0 incTok) 0
        (setSt .Dead)) j).parent = (refAtL s.ref_info j).parent := by
      intro j
      rcases eq_or_ne j 0 with rfl | hj
      · rw [hA, hsi]
        rfl
      · rw [hother j hj]
    have hst : ∀ j, j ≠ 0 → (refAtL (updRef (updRef (updRef s.ref_info 0 decTok) 0 incTok)
        0 (setSt .Dead)) j).state = (refAtL s.ref_info j).state := by
      intro j hj
      rw [hother j hj]
    have hchild := childBL_swap_at hlen hs.pos (fun j _ hj => ⟨hpar j, hst j hj⟩)
    have hterm_old : ∀ i, childTermL s.ref_info i 0 = 0 := by
      intro i
      unfold childTermL
      rw [hsi, hsp0]
      exact if_neg (fun hco => hco.2 hco.1)
    have hterm_new : ∀ i, childTermL (updRef (updRef (updRef s.ref_info 0 decTok) 0 incTok)
        0 (setSt .Dead)) i 0 = 0 := by
      intro i
      unfold childTermL
      rw [hA]
      have hpa : (setSt RefState.Dead (incTok (decTok si))).parent = si.parent := rfl
      rw [hpa, hsp0]
      exact if_neg (fun hco => hco.2 hco.1)
    have hch : ∀ i, childBL (updRef (updRef (updRef s.ref_info 0 decTok) 0 incTok) 0
        (setSt .Dead)) i = childBL s.ref_info i := by
      intro i
      have hc := hchild i
      rw [hterm_old, hterm_new] at hc
      omega
    have htok : listTokens (updRef (updRef (updRef s.ref_info 0 decTok) 0 incTok) 0
        (setSt .Dead)) = listTokens s.ref_info := by
      have f0 := listTokens_updRef decTok hx
      have f1 := listTokens_updRef incTok e1
      have f2 := listTokens_updRef (setSt .Dead) e2
      have d1 : (decTok si).num_tokens = si.num_tokens - 1 := rfl
      have d2 : (incTok (decTok si)).num_tokens = si.num_tokens - 1 + 1 := rfl
      have d3 : (setSt RefState.Dead (incTok (decTok si))).num_tokens
          = si.num_tokens - 1 + 1 := rfl
      omega
    rw [hs']
    refine ⟨?_, ?_, ?_, ?_, ?_, ?_, ?_, ?_⟩
    · show 0 < (updRef (updRef (updRef s.ref_info 0 decTok) 0 incTok) 0
        (setSt .Dead)).length
      have := hs.pos
      omega
    · show (refAtL (updRef (updRef (updRef s.ref_info 0 decTok) 0 incTok) 0
        (setSt .Dead)) 0).parent = 0
      rw [hpar 0]
      exact hs.root_parent
    · intro i hi0 hi
      show (refAtL (updRef (updRef (updRef s.ref_info 0 decTok) 0 incTok) 0
        (setSt .Dead)) i).parent < i
      rw [hlen] at hi
      rw [hpar i]
      exact hs.parent_lt i hi0 hi
    · show (refAtL (updRef (updRef (updRef s.ref_info 0 decTok) 0 incTok) 0
        (setSt .Dead)) 0).state ≠ .Created
      rw [hA]
      simp [setSt]
    · intro i hi hcr
      rw [hlen] at hi
      have hcr' : (refAtL (updRef (updRef (updRef s.ref_info 0 decTok) 0 incTok) 0
        (setSt .Dead)) i).state = .Created := hcr
      show (refAtL (updRef (updRef (updRef s.ref_info 0 decTok) 0 incTok) 0
          (setSt .Dead)) i).num_tokens = 0 ∧
        (refAtL (updRef (updRef (updRef s.ref_info 0 decTok) 0 incTok) 0
          (setSt .Dead)) i).num_splits = 0
      rcases eq_or_ne i 0 with rfl | hi0
      · rw [hA] at hcr'
        exact absurd hcr' (by simp [setSt])
      · rw [hother i hi0] at hcr' ⊢
        exact hs.created_zero i hi hcr'
    · intro i hi0 hi hdd
      rw [hlen] at hi
      have hdd' : (refAtL (updRef (updRef (updRef s.ref_info 0 decTok) 0 incTok) 0
        (setSt .Dead)) i).state = .Dead := hdd
      show (refAtL (updRef (updRef (updRef s.ref_info 0 decTok) 0 incTok) 0
          (setSt .Dead)) i).num_tokens = 0 ∧
        (refAtL (updRef (updRef (updRef s.ref_info 0 decTok) 0 incTok) 0
          (setSt .Dead)) i).num_splits = 0
      have hine : i ≠ 0 := by omega
      rw [hother i hine] at hdd' ⊢
      exact hs.dead_zero i hi0 hi hdd'
    · intro i hi
      rw [hlen] at hi
      show (refAtL (updRef (updRef (updRef s.ref_info 0 decTok) 0 incTok) 0
          (setSt .Dead)) i).num_tokens
          + childBL (updRef (updRef (updRef s.ref_info 0 decTok) 0 incTok) 0
            (setSt .Dead)) i
        = (if i = 0 then 1
            else borrowFlag (refAtL (updRef (updRef (updRef s.ref_info 0 decTok) 0 incTok)
              0 (setSt .Dead)) i))
          + (refAtL (updRef (updRef (updRef s.ref_info 0 decTok) 0 incTok) 0
            (setSt .Dead)) i).num_splits
      rw [hch i]
      have hold := hs.ledger i hi
      rw [refAt_def, childB_def] at hold
      rcases eq_or_ne i 0 with rfl | hi0
      · rw [hA]
        rw [hsi] at hold
        have a1 : (setSt RefState.Dead (incTok (decTok si))).num_tokens
            = si.num_tokens - 1 + 1 := rfl
        have a2 : (setSt RefState.Dead (incTok (decTok si))).num_splits
            = si.num_splits := rfl
        rw [a1, a2, if_pos rfl]
        rw [if_pos rfl] at hold
        omega
      · rw [hother i hi0]
        exact hold
    · show listTokens (updRef (updRef (updRef s.ref_info 0 decTok) 0 incTok) 0
        (setSt .Dead)) = s.token_count
      have hcons := hs.conserve
      rw [totalTokens_def] at hcons
      omega
  -- a non-root reference returning its unit to its parent
  · have hx0 : 0 < x := Nat.pos_of_ne_zero hx0ne
    have hpx : si.parent < x := by
      have hv := hs.parent_lt x hx0 hxn
      rw [refAt_def, hsi] at hv
      exact hv
    have hpxne : si.parent ≠ x := by omega
    have hxpne : x ≠ si.parent := by omega
    have hsib : si.state = .Borrowing := by
      cases hsb : si.state with
      | Borrowing => rfl
      | Created =>
        have hcz := hs.created_zero x hxn (by rw [refAt_def, hsi]; exact hsb)
        rw [refAt_def, hsi] at hcz
        omega
      | Dead =>
        have hdz := hs.dead_zero x hx0 hxn (by rw [refAt_def, hsi]; exact hsb)
        rw [refAt_def, hsi] at hdz
        omega
    have e1 : (updRef s.ref_info x decTok)[si.parent]? = some pi := by
      rw [getElem?_updRef_ne _ hpxne]
      exact hpi
    have e2 : (updRef (updRef s.ref_info x decTok) si.parent incTok)[x]?
        = some (decTok si) := by
      rw [getElem?_updRef_ne _ hxpne]
      exact getElem?_updRef_self _ hx
    have hAx : refAtL (updRef (updRef (updRef s.ref_info x decTok) si.parent incTok) x
        (setSt .Dead)) x = setSt .Dead (decTok si) := refAtL_updRef_self _ e2
    have hApi : refAtL (updRef (updRef (updRef s.ref_info x decTok) si.parent incTok) x
        (setSt .Dead)) si.parent = incTok pi := by
      rw [refAtL_updRef_ne _ hpxne]
      exact refAtL_updRef_self _ e1
    have hother : ∀ j, j ≠ x → j ≠ si.parent →
        refAtL (updRef (updRef (updRef s.ref_info x decTok) si.parent incTok) x
          (setSt .Dead)) j = refAtL s.ref_info j := by
      intro j hjx hjp
      rw [refAtL_updRef_ne _ hjx, refAtL_updRef_ne _ hjp, refAtL_updRef_ne _ hjx]
    have hlen : (updRef (updRef (updRef s.ref_info x decTok) si.parent incTok) x
        (setSt .Dead)).length = s.ref_info.length := by
      rw [updRef_length, updRef_length, updRef_length]
    have hpar : ∀ j, (refAtL (updRef (updRef (updRef s.ref_info x decTok) si.parent incTok)
        x (setSt .Dead)) j).parent = (refAtL s.ref_info j).parent := by
      intro j
      rcases eq_or_ne j x with rfl | hjx
      · rw [hAx, hsi]
        rfl
      · rcases eq_or_ne j si.parent with rfl | hjp
        · rw [hApi, hpi']
          rfl
        · rw [hother j hjx hjp]
    have hst : ∀ j, j ≠ x → (refAtL (updRef (updRef (updRef s.ref_info x decTok) si.parent
        incTok) x (setSt .Dead)) j).state = (refAtL s.ref_info j).state := by
      intro j hjx
      rcases eq_or_ne j si.parent with rfl | hjp
      · rw [hApi, hpi']
        rfl
      · rw [hother j hjx hjp]
    have hchild := childBL_swap_at hlen hxn (fun j _ hjx => ⟨hpar j, hst j hjx⟩)
    have hterm_old : ∀ i, childTermL s.ref_info i x
        = if si.parent = i ∧ x ≠ i then 1 else 0 := by
      intro i
      unfold childTermL borrowFlag
      rw [hsi, hsib]
      simp
    have hterm_new : ∀ i, childTermL (updRef (updRef (updRef s.ref_info x decTok)
        si.parent incTok) x (setSt .Dead)) i x = 0 := by
      intro i
      unfold childTermL borrowFlag
      rw [hAx]
      simp [setSt, decTok]
    have hch : ∀ i, childBL (updRef (updRef (updRef s.ref_info x decTok) si.parent incTok)
        x (setSt .Dead)) i + (if si.parent = i ∧ x ≠ i then 1 else 0)
        = childBL s.ref_info i := by
      intro i
      have hc := hchild i
      rw [hterm_old, hterm_new] at hc
      omega
    have hterm1 : childTermL s.ref_info si.parent x = 1 := by
      rw [hterm_old, if_pos ⟨rfl, hxpne⟩]
    have hge : 1 ≤ childBL s.ref_info si.parent := by
      unfold childBL
      calc 1 = childTermL s.ref_info si.parent x := hterm1.symm
        _ ≤ ∑ j in Finset.range s.ref_info.length, childTermL s.ref_info si.parent j :=
          Finset.single_le_sum (fun j _ => Nat.zero_le _) (Finset.mem_range.mpr hxn)
    have hpiNotCreated : pi.state ≠ .Created := by
      intro hcr
      rcases eq_or_ne si.parent 0 with hp0 | hp0
      · have hr := hs.root_state
        rw [refAt_def] at hr
        rw [hp0] at hpi'
        rw [hpi'] at hr
        exact hr hcr
      · have hcz := hs.created_zero si.parent hpn (by rw [refAt_def, hpi']; exact hcr)
        rw [refAt_def, hpi'] at hcz
        have hledp := hs.ledger si.parent hpn
        rw [refAt_def, childB_def, hpi'] at hledp
        have hflag : borrowFlag pi = 0 := by
          unfold borrowFlag
          rw [hcr]
          rfl
        rw [if_neg hp0, hflag] at hledp
        omega
    have hpiNotDead : 0 < si.parent → pi.state ≠ .Dead := by
      intro hp0 hdead
      have hdz := hs.dead_zero si.parent hp0 hpn (by rw [refAt_def, hpi']; exact hdead)
      rw [refAt_def, hpi'] at hdz
      have hledp := hs.ledger si.parent hpn
      rw [refAt_def, childB_def, hpi'] at hledp
      have hflag : borrowFlag pi = 0 := by
        unfold borrowFlag
        rw [hdead]
        rfl
      rw [if_neg (by omega : si.parent ≠ 0), hflag] at hledp
      omega
    have htok : listTokens (updRef (updRef (updRef s.ref_info x decTok) si.parent incTok)
        x (setSt .Dead)) = listTokens s.ref_info := by
      have f0 := listTokens_updRef decTok hx
      have f1 := listTokens_updRef incTok e1
      have f2 := listTokens_updRef (setSt .Dead) e2
      have d1 : (decTok si).num_tokens = si.num_tokens - 1 := rfl
      have d2 : (incTok pi).num_tokens = pi.num_tokens + 1 := rfl
      have d3 : (setSt RefState.Dead (decTok si)).num_tokens = si.num_tokens - 1 := rfl
      omega
    rw [hs']
    refine ⟨?_, ?_, ?_, ?_, ?_, ?_, ?_, ?_⟩
    · show 0 < (updRef (updRef (updRef s.ref_info x decTok) si.parent incTok) x
        (setSt .Dead)).length
      have := hs.pos
      omega
    · show (refAtL (updRef (updRef (updRef s.ref_info x decTok) si.parent incTok) x
        (setSt .Dead)) 0).parent = 0
      rw [hpar 0]
      exact hs.root_parent
    · intro i hi0 hi
      show (refAtL (updRef (updRef (updRef s.ref_info x decTok) si.parent incTok) x
        (setSt .Dead)) i).parent < i
      rw [hlen] at hi
      rw [hpar i]
      exact hs.parent_lt i hi0 hi
    · show (refAtL (updRef (updRef (updRef s.ref_info x decTok) si.parent incTok) x
        (setSt .Dead)) 0).state ≠ .Created
      rw [hst 0 (Ne.symm hx0ne)]
      exact hs.root_state
    · intro i hi hcr
      rw [hlen] at hi
      have hcr' : (refAtL (updRef (updRef (updRef s.ref_info x decTok) si.parent incTok) x
        (setSt .Dead)) i).state = .Created := hcr
      show (refAtL (updRef (updRef (updRef s.ref_info x decTok) si.parent incTok) x
          (setSt .Dead)) i).num_tokens = 0 ∧
        (refAtL (updRef (updRef (updRef s.ref_info x decTok) si.parent incTok) x
          (setSt .Dead)) i).num_splits = 0
      rcases eq_or_ne i x with rfl | hix
      · rw [hAx] at hcr'
        exact absurd hcr' (by simp [setSt])
      · rcases eq_or_ne i si.parent with rfl | hip
        · exfalso
          rw [hApi] at hcr'
          exact hpiNotCreated hcr'
        · rw [hother i hix hip] at hcr' ⊢
          exact hs.created_zero i hi hcr'
    · intro i hi0 hi hdd
      rw [hlen] at hi
      have hdd' : (refAtL (updRef (updRef (updRef s.ref_info x decTok) si.parent incTok) x
        (setSt .Dead)) i).state = .Dead := hdd
      show (refAtL (updRef (updRef (updRef s.ref_info x decTok) si.parent incTok) x
          (setSt .Dead)) i).num_tokens = 0 ∧
        (refAtL (updRef (updRef (updRef s.ref_info x decTok) si.parent incTok) x
          (setSt .Dead)) i).num_splits = 0
      rcases eq_or_ne i x with rfl | hix
      · rw [hAx]
        have a1 : (setSt RefState.Dead (decTok si)).num_tokens = si.num_tokens - 1 := rfl
        have a2 : (setSt RefState.Dead (decTok si)).num_splits = si.num_splits := rfl
        rw [a1, a2]
        omega
      · rcases eq_or_ne i si.parent with rfl | hip
        · exfalso
          rw [hApi] at hdd'
          exact hpiNotDead hi0 hdd'
        · rw [hother i hix hip] at hdd' ⊢
          exact hs.dead_zero i hi0 hi hdd'
    · intro i hi
      rw [hlen] at hi
      show (refAtL (updRef (updRef (updRef s.ref_info x decTok) si.parent incTok) x
          (setSt .Dead)) i).num_tokens
          + childBL (updRef (updRef (updRef s.ref_info x decTok) si.parent incTok) x
            (setSt .Dead)) i
        = (if i = 0 then 1
            else borrowFlag (refAtL (updRef (updRef (updRef s.ref_info x decTok) si.parent
              incTok) x (setSt .Dead)) i))
          + (refAtL (updRef (updRef (updRef s.ref_info x decTok) si.parent incTok) x
            (setSt .Dead)) i).num_splits
      have hold := hs.ledger i hi
      rw [refAt_def, childB_def] at hold
      rcases eq_or_ne i x with rfl | hix
      · rw [hAx]
        rw [hsi] at hold
        have hchx := hch i
        rw [if_neg (fun hco => hco.2 rfl)] at hchx
        have a1 : (setSt RefState.Dead (decTok si)).num_tokens = si.num_tokens - 1 := rfl
        have a2 : (setSt RefState.Dead (decTok si)).num_splits = si.num_splits := rfl
        have a3 : borrowFlag (setSt RefState.Dead (decTok si)) = 0 := rfl
        rw [a1, a2, a3, if_neg hx0ne]
        rw [if_neg hx0ne] at hold
        have hflag : borrowFlag si = 1 := by
          unfold borrowFlag
          rw [hsib]
          rfl
        rw [hflag] at hold
        omega
      · rcases eq_or_ne i si.parent with rfl | hip
        · rw [hApi]
          rw [hpi'] at hold
          have hchp := hch si.parent
          rw [if_pos ⟨rfl, hxpne⟩] at hchp
          have a1 : (incTok pi).num_tokens = pi.num_tokens + 1 := rfl
          have a2 : (incTok pi).num_splits = pi.num_splits := rfl
          have a3 : borrowFlag (incTok pi) = borrowFlag pi := rfl
          rw [a1, a2, a3]
          omega
        · rw [hother i hix hip]
          have hchi := hch i
          rw [if_neg (fun hco => hip hco.1.symm)] at hchi
          omega
    · show listTokens (updRef (updRef (updRef s.ref_info x decTok) si.parent incTok) x
        (setSt .Dead)) = s.token_count
      have hcons := hs.conserve
      rw [totalTokens_def] at hcons
      omega

/-- Every reachable state satisfies the coupled invariant. -/
theorem reachable_inv {s : TokenMachine} (h : Reachable s) : Inv s := by
  induction h with
  | init => exact inv_init
  | step op hr hok ih =>
    rename_i s s'
    clear hr
    cases op with
    | create p k =>
      simp only [Op.apply] at hok
      cases hc : create_ref s p k with
      | error f =>
        rw [hc] at hok
        exact absurd hok (by simp [Except.map])
      | ok res =>
        rw [hc] at hok
        simp only [Except.map] at hok
        injection hok with hok'
        rw [← hok']
        exact inv_create ih hc
    | lend t => exact inv_lend ih hok
    | ret x => exact inv_ret ih hok
    | split x => exact inv_split ih hok
    | merge x => exact inv_merge ih hok
    | setPerms x m => exact inv_setPerms ih hok
    | use x a => exact inv_use ih hok

theorem borrowFlag_le_one (r : RefInfo) : borrowFlag r ≤ 1 := by
  unfold borrowFlag
  split <;> omega

/-- In a reachable state, a reference with no outstanding splits holds at most
one unit (so return_token's `assert!(num_tokens == 1)` is justified). -/
theorem reachable_sp_zero_tokens_le_one {s : TokenMachine} {x : Nat} {ri : RefInfo}
    (h : Reachable s) (hx : s.ref_info[x]? = some ri) (hsp : ri.num_splits = 0) :
    ri.num_tokens ≤ 1 := by
  have hinv := reachable_inv h
  have hxn : x < s.ref_info.length := lt_of_getElem?_some hx
  have hled := hinv.ledger x hxn
  rw [refAt_def, refAtL_of_some hx] at hled
  have hfl := borrowFlag_le_one ri
  rcases eq_or_ne x 0 with rfl | hx0
  · rw [if_pos rfl] at hled
    omega
  · rw [if_neg hx0] at hled
    omega

/-! ### Claim-level definitions -/

/-- The admissible-access lattice exactly as the specification words it,
per reference kind, derived exclusivity and stored access mode:
SharedReadOnly reads need (Shared, ReadOnly) or Exclusive and never write;
SharedReadWrite always reads and writes iff the mode is ReadWrite;
Unique reads like SharedReadOnly and writes iff (Exclusive, ReadWrite). -/
def spec_lattice (kind : RefKind) (excl : TokenExclusivity)
    (mode : TokenPermissions) : AccessKind → Bool
  | .Read =>
    match kind with
    | .SharedReadOnly => (excl = .Shared ∧ mode = .ReadOnly) ∨ excl = .Exclusive
    | .SharedReadWrite => true
    | .Unique => (excl = .Shared ∧ mode = .ReadOnly) ∨ excl = .Exclusive
  | .Write =>
    match kind with
    | .SharedReadOnly => false
    | .SharedReadWrite => mode = .ReadWrite
    | .Unique => excl = .Exclusive ∧ mode = .ReadWrite

/-- Exclusivity as the machine derives it: Exclusive iff the global unit count
is exactly one at the moment of the call. -/
def exclOf (s : TokenMachine) : TokenExclusivity :=
  if s.token_count = 1 then .Exclusive else .Shared

/-- The state reached from init by `return_unit(root)`: the root's single unit
travels the self-loop parent edge back to the root, which is then marked Dead
while still holding the unit. -/
def sDeadRoot : TokenMachine :=
  { token_count := 1,
    ref_info := [{ kind := .Unique, state := .Dead, parent := 0,
                   num_tokens := 1, num_splits := 0 }],
    token_perms := .ReadWrite }

/-- State reached by `split(root); create(root, Unique); lend(1)`: the child
(id 1) is Borrowing while the root still holds one unit. -/
def sSplitLent : TokenMachine :=
  ⟨2, [⟨.Unique, .Borrowing, 0, 1, 1⟩, ⟨.Unique, .Borrowing, 0, 1, 0⟩], .ReadWrite⟩

/-- State reached by `create(root, Unique)` from init: a Created child of the
root, the root still holding its unit. -/
def sChild : TokenMachine :=
  ⟨1, [rootInfo, freshInfo 0 .Unique], .ReadWrite⟩

/-- State reached by `create; lend 1; return_unit 1; create; lend 2`:
reference 1 is Dead and its parent (the root) holds no unit. -/
def sDeadChild : TokenMachine :=
  ⟨1, [⟨.Unique, .Borrowing, 0, 0, 0⟩, ⟨.Unique, .Dead, 0, 0, 0⟩,
       ⟨.Unique, .Borrowing, 0, 1, 0⟩], .ReadWrite⟩

/-- State reached by `create(root, SharedReadOnly); lend(1)`: a Borrowing
SharedReadOnly child holding the unit. -/
def sSROLent : TokenMachine :=
  ⟨1, [⟨.Unique, .Borrowing, 0, 0, 0⟩, ⟨.SharedReadOnly, .Borrowing, 0, 1, 0⟩],
    .ReadWrite⟩

/-! ### The claims -/

/-- C1: for every machine state and reference `r` registered with record `ri`
that holds at least one token unit and is not Dead, `use_token r a` succeeds
exactly when the kind lattice of the specification admits the access, where
exclusivity is Exclusive iff the global unit count is exactly 1; moreover a
Write through a SharedReadOnly reference always fails with ReadOnlyViolation.
(Quantifying over all states subsumes the claim's reachable states.) -/
theorem C1_use_token_kind_lattice (s : TokenMachine) (r : Nat) (ri : RefInfo)
    (a : AccessKind) (hsome : s.ref_info[r]? = some ri) (htok : 1 ≤ ri.num_tokens)
    (hdead : ri.state ≠ .Dead) :
    ((∃ s', use_token s r a = .ok s') ↔
      spec_lattice ri.kind (exclOf s) s.token_perms a = true)
    ∧ (ri.kind = .SharedReadOnly → a = .Write →
        use_token s r a = .error .readOnlyViolation) := by
  have h0 : ¬(ri.num_tokens = 0) := by omega
  obtain ⟨e, he⟩ : ∃ e, exclOf s = e := ⟨_, rfl⟩
  obtain ⟨m, hm⟩ : ∃ m, s.token_perms = m := ⟨_, rfl⟩
  have hgti : get_token_info s r
      = .ok (some { exclusivity := e, perms := m }) := by
    unfold get_token_info
    simp only [hsome]
    rw [if_neg h0, if_neg hdead, ← he, ← hm]
    rfl
  have hred : use_token s r a
      = match ri.kind with
        | .SharedReadOnly =>
          match a with
          | .Read =>
            if ({ exclusivity := e, perms := m } : TokenInfo)
                = { exclusivity := .Shared, perms := .ReadOnly } ∨ e = .Exclusive
            then .ok s else .error .sroReadViolation
          | .Write => .error .readOnlyViolation
        | .SharedReadWrite =>
          match a with
          | .Read => .ok s
          | .Write => if m = .ReadWrite then .ok s else .error .srwWriteViolation
        | .Unique =>
          match a with
          | .Read =>
            if ({ exclusivity := e, perms := m } : TokenInfo)
                = { exclusivity := .Shared, perms := .ReadOnly } ∨ e = .Exclusive
            then .ok s else .error .uniqueReadViolation
          | .Write =>
            if ({ exclusivity := e, perms := m } : TokenInfo)
                = { exclusivity := .Exclusive, perms := .ReadWrite }
            then .ok s else .error .uniqueWriteViolation := by
    unfold use_token
    rw [hgti]
    simp only [hsome]
  constructor
  · rw [hred, he, hm]
    cases ri.kind <;> cases a <;> cases e <;> cases m <;>
      simp [spec_lattice]
  · intro hk ha
    rw [hred, hk, ha]

/-- Witness for C1: through the fresh root (Unique, Exclusive, ReadWrite) a
Read is admitted, and through a lent SharedReadOnly reference a Write fails
with ReadOnlyViolation. -/
theorem C1_use_token_kind_lattice_witness :
    (∃ s', use_token mInit 0 .Read = .ok s') ∧
    use_token sSROLent 1 .Write = .error .readOnlyViolation :=
  ⟨(C1_use_token_kind_lattice mInit 0 rootInfo .Read rfl (by decide) (by decide)).1.mpr
      (by decide),
    (C1_use_token_kind_lattice sSROLent 1 ⟨.SharedReadOnly, .Borrowing, 0, 1, 0⟩ .Write
      rfl (by decide) (by decide)).2 rfl rfl⟩

/-- C2: in every reachable state the sum of held units over all registered
references equals the recorded global unit count, and among all operations
only split and merge change that count (split by +1, merge by -1). -/
theorem C2_unit_conservation (s : TokenMachine) (h : Reachable s) :
    totalTokens s = s.token_count ∧
    ∀ (op : Op) (s' : TokenMachine), Op.apply s op = .ok s' →
      s'.token_count
        = match op with
          | .split _ => s.token_count + 1
          | .merge _ => s.token_count - 1
          | _ => s.token_count := by
  refine ⟨(reachable_inv h).conserve, ?_⟩
  intro op s' hok
  cases op with
  | create p k =>
    simp only [Op.apply] at hok
    cases hc : create_ref s p k with
    | error f =>
      rw [hc] at hok
      exact absurd hok (by simp [Except.map])
    | ok res =>
      rw [hc] at hok
      simp only [Except.map] at hok
      injection hok with hok'
      obtain ⟨_, _, _, hres⟩ := create_ref_ok hc
      rw [← hok', hres]
  | lend t =>
    obtain ⟨ti, si, _, _, _, _, hs'⟩ := borrow_token_ok hok
    rw [hs']
  | ret x =>
    obtain ⟨si, _, _, _, _, hs'⟩ := return_token_ok hok
    rw [hs']
  | split x =>
    obtain ⟨si, _, _, hs'⟩ := dup_token_ok hok
    rw [hs']
  | merge x =>
    obtain ⟨si, _, _, _, hs'⟩ := merge_token_ok hok
    rw [hs']
  | setPerms x m =>
    obtain ⟨_, _, hs'⟩ := set_token_perms_ok hok
    rw [hs']
  | use x a =>
    rw [use_token_ok_eq hok]

/-- Witness for C2 at the initial state. -/
theorem C2_unit_conservation_witness :
    totalTokens mInit = mInit.token_count ∧
    ∀ (op : Op) (s' : TokenMachine), Op.apply mInit op = .ok s' →
      s'.token_count
        = match op with
          | .split _ => mInit.token_count + 1
          | .merge _ => mInit.token_count - 1
          | _ => mInit.token_count :=
  C2_unit_conservation mInit Reachable.init

/-- C3 (code bug): the claim says set_access_mode succeeds iff the global unit
count is 1.  In the reachable state `sDeadRoot` (reached by the single call
`return_unit(root)`) the count is 1 and the root holds the unit, yet
`set_token_perms` fails: the defensive `assert!(state != Dead)` inside
get_token_info fires, because the root is Dead while still holding a unit —
the code violates its own asserted invariant. -/
theorem C3_set_access_mode_dead_root :
    Reachable sDeadRoot ∧ sDeadRoot.token_count = 1 ∧
      (refAt sDeadRoot 0).num_tokens = 1 ∧
      set_token_perms sDeadRoot 0 .ReadOnly = .error .deadReference ∧
      set_token_perms sDeadRoot 0 .ReadWrite = .error .deadReference :=
  ⟨Reachable.step (.ret 0) Reachable.init rfl, rfl, rfl, rfl, rfl⟩

/-- C5 (code bug): the claim (and the code's own assert) say a Dead reference
holds zero units apart from relaying return traffic from a descendant.  After
the single call `return_unit(root)` the root is Dead yet permanently holds one
unit — no descendant returned anything — and any token-info query on it trips
the `assert!(state != Dead)`. -/
theorem C5_dead_root_holds_unit :
    Reachable sDeadRoot ∧ (refAt sDeadRoot 0).state = .Dead ∧
      (refAt sDeadRoot 0).num_tokens = 1 ∧
      get_token_info sDeadRoot 0 = .error .deadReference :=
  ⟨Reachable.step (.ret 0) Reachable.init rfl, rfl, rfl, rfl⟩

/-- Counterexample to C4 as stated: in the reachable state `sSplitLent` the
target (reference 1) is Borrowing and its parent holds a unit, so the claim
predicts `lend(1)` succeeds idempotently; the code instead rejects it with
the "Target has already received a token before" panic. -/
theorem C4_lend_already_borrowing_cex :
    Reachable sSplitLent ∧ (refAt sSplitLent 1).state = .Borrowing ∧
      (refAt sSplitLent 1).parent = 0 ∧ 1 ≤ (refAt sSplitLent 0).num_tokens ∧
      borrow_token sSplitLent 1 = .error .alreadyBorrowing ∧
      ∀ s', borrow_token sSplitLent 1 ≠ .ok s' := by
  refine ⟨?_, rfl, rfl, by decide, rfl, ?_⟩
  · exact Reachable.step (.lend 1)
      (Reachable.step (.create 0 .Unique)
        (Reachable.step (.split 0) Reachable.init rfl) rfl) rfl
  · intro s' hcon
    rw [show borrow_token sSplitLent 1 = .error .alreadyBorrowing from rfl] at hcon
    exact Except.noConfusion hcon

/-- C4 (amended): `lend(t)` succeeds iff the parent holds at least one unit
and `t` is still in the Created state, moving exactly one unit from the parent
to `t` and making `t` Borrowing; it fails InsufficientTokens when the parent
holds no unit (checked first), AlreadyBorrowing when `t` has already received
a unit (re-lending is not implemented), and DeadTarget when `t` is Dead. -/
theorem C4_lend_characterization (s : TokenMachine) (t : Nat) (ti pinfo : RefInfo)
    (hsome : s.ref_info[t]? = some ti) (hpsome : s.ref_info[ti.parent]? = some pinfo)
    (hne : ti.parent ≠ t) :
    (1 ≤ pinfo.num_tokens → ti.state = .Created →
      borrow_token s t = .ok ⟨s.token_count,
        (s.ref_info.set ti.parent { pinfo with num_tokens := pinfo.num_tokens - 1 }).set t
          { ti with num_tokens := ti.num_tokens + 1, state := .Borrowing },
        s.token_perms⟩)
    ∧ (pinfo.num_tokens = 0 → borrow_token s t = .error .insufficientTokens)
    ∧ (1 ≤ pinfo.num_tokens → ti.state = .Borrowing →
        borrow_token s t = .error .alreadyBorrowing)
    ∧ (1 ≤ pinfo.num_tokens → ti.state = .Dead →
        borrow_token s t = .error .deadTarget) := by
  have htn : t < s.ref_info.length := lt_of_getElem?_some hsome
  refine ⟨?_, ?_, ?_, ?_⟩
  · intro htok hcr
    unfold borrow_token
    simp only [hsome, hpsome]
    rw [if_neg (by omega), hcr]
    have e0 : updRef s.ref_info ti.parent decTok
        = s.ref_info.set ti.parent (decTok pinfo) := updRef_eq_set hpsome
    have e1 : (s.ref_info.set ti.parent (decTok pinfo))[t]? = some ti := by
      rw [List.getElem?_set_ne hne]
      exact hsome
    have e2 : ((s.ref_info.set ti.parent (decTok pinfo)).set t (incTok ti))[t]?
        = some (incTok ti) := by
      refine List.getElem?_set_eq_of_lt _ ?_
      simp [htn]
    rw [e0, updRef_eq_set e1, updRef_eq_set e2, List.set_set]
    rfl
  · intro h0
    unfold borrow_token
    simp only [hsome, hpsome]
    rw [if_pos h0]
  · intro htok hb
    unfold borrow_token
    simp only [hsome, hpsome]
    rw [if_neg (by omega), hb]
  · intro htok hd
    unfold borrow_token
    simp only [hsome, hpsome]
    rw [if_neg (by omega), hd]

/-- Witness for the amended C4: lending to the Created child in `sChild`
moves the root's unit to the child. -/
theorem C4_lend_characterization_witness :
    borrow_token sChild 1
      = .ok ⟨1, [⟨.Unique, .Borrowing, 0, 0, 0⟩, ⟨.Unique, .Borrowing, 0, 1, 0⟩],
          .ReadWrite⟩ :=
  (C4_lend_characterization sChild 1 (freshInfo 0 .Unique) rootInfo rfl rfl
    (by decide)).1 (by decide) rfl

/-- C6: for any state and any registered reference holding at least one unit,
split immediately followed by merge succeeds and restores the machine state
exactly (held units, split count, global count, and everything else). -/
theorem C6_split_merge_round_trip (s : TokenMachine) (x : Nat) (si : RefInfo)
    (hsome : s.ref_info[x]? = some si) (htok : 1 ≤ si.num_tokens) :
    ∃ s₁, dup_token s x = .ok s₁ ∧ merge_token s₁ x = .ok s := by
  have h0 : ¬(si.num_tokens = 0) := by omega
  refine ⟨⟨s.token_count + 1, updRef s.ref_info x bumpSplit, s.token_perms⟩, ?_, ?_⟩
  · unfold dup_token
    simp only [hsome]
    rw [if_neg h0]
  · unfold merge_token
    have e : (updRef s.ref_info x bumpSplit)[x]? = some (bumpSplit si) :=
      getElem?_updRef_self _ hsome
    have hb1 : (bumpSplit si).num_tokens = si.num_tokens + 1 := rfl
    have hb2 : (bumpSplit si).num_splits = si.num_splits + 1 := rfl
    simp only [e]
    rw [if_neg (by omega), if_neg (by omega)]
    have hlist : updRef (updRef s.ref_info x bumpSplit) x dropSplit = s.ref_info := by
      rw [updRef_eq_set e, updRef_eq_set hsome, List.set_set]
      have hds : dropSplit (bumpSplit si) = si := rfl
      rw [hds]
      exact set_self_of_getElem? s.ref_info x si hsome
    rw [hlist]
    rfl

/-- Witness for C6 at the initial state's root. -/
theorem C6_split_merge_round_trip_witness :
    ∃ s₁, dup_token mInit 0 = .ok s₁ ∧ merge_token s₁ 0 = .ok mInit :=
  C6_split_merge_round_trip mInit 0 rootInfo rfl (by decide)

/-- Counterexample to C7 as stated: in the reachable state `sDeadChild`,
reference 1 is Dead (a successful return_unit brought it to 0 units earlier in
the trace) but a later `lend(1)` fails with InsufficientTokens, not with
DeadTarget, because the parent's token check runs first and the parent holds
no unit at that point. -/
theorem C7_lend_after_death_cex :
    Reachable sDeadChild ∧ (refAt sDeadChild 1).state = .Dead ∧
      (refAt sDeadChild (refAt sDeadChild 1).parent).num_tokens = 0 ∧
      borrow_token sDeadChild 1 = .error .insufficientTokens ∧
      Fault.insufficientTokens ≠ Fault.deadTarget := by
  refine ⟨?_, rfl, rfl, rfl, by decide⟩
  exact Reachable.step (.lend 2)
    (Reachable.step (.create 0 .Unique)
      (Reachable.step (.ret 1)
        (Reachable.step (.lend 1)
          (Reachable.step (.create 0 .Unique) Reachable.init rfl) rfl) rfl) rfl) rfl

/-- C7 (amended): a successful return_unit leaves its source Dead; every
operation preserves Dead-ness of every reference (Dead is absorbing); and a
lend to a Dead reference never succeeds — it fails DeadTarget when the parent
holds a unit and InsufficientTokens when the parent holds none. -/
theorem C7_dead_absorbing :
    (∀ (s : TokenMachine) (x : Nat) (s' : TokenMachine), return_token s x = .ok s' →
      ∃ ri', s'.ref_info[x]? = some ri' ∧ ri'.state = .Dead)
    ∧ (∀ (s : TokenMachine) (op : Op) (s' : TokenMachine) (x : Nat) (ri : RefInfo),
        Op.apply s op = .ok s' → s.ref_info[x]? = some ri → ri.state = .Dead →
        ∃ ri', s'.ref_info[x]? = some ri' ∧ ri'.state = .Dead)
    ∧ (∀ (s : TokenMachine) (x : Nat) (ri : RefInfo), s.ref_info[x]? = some ri →
        ri.state = .Dead →
        (∀ s', borrow_token s x ≠ .ok s')
        ∧ ∀ pinfo, s.ref_info[ri.parent]? = some pinfo →
            (1 ≤ pinfo.num_tokens → borrow_token s x = .error .deadTarget)
            ∧ (pinfo.num_tokens = 0 → borrow_token s x = .error .insufficientTokens)) := by
  refine ⟨?_, ?_, ?_⟩
  · intro s x s' h
    obtain ⟨si, hx, h1, hsp, ⟨pi, hpi⟩, hs'⟩ := return_token_ok h
    have hxlen2 : x < (updRef (updRef s.ref_info x decTok) si.parent incTok).length := by
      rw [updRef_length, updRef_length]
      exact lt_of_getElem?_some hx
    obtain ⟨X, hX⟩ : ∃ X, (updRef (updRef s.ref_info x decTok) si.parent incTok)[x]?
        = some X := ⟨_, List.getElem?_eq_getElem hxlen2⟩
    refine ⟨setSt .Dead X, ?_, rfl⟩
    rw [hs']
    exact getElem?_updRef_self _ hX
  · intro s op s' x ri hok hx hdead
    cases op with
    | create p k =>
      simp only [Op.apply] at hok
      cases hc : create_ref s p k with
      | error f =>
        rw [hc] at hok
        exact absurd hok (by simp [Except.map])
      | ok res =>
        rw [hc] at hok
        simp only [Except.map] at hok
        injection hok with hok'
        obtain ⟨pinfo, hp, _, hres⟩ := create_ref_ok hc
        refine ⟨ri, ?_, hdead⟩
        rw [← hok', hres]
        show (s.ref_info ++ [freshInfo p k])[x]? = some ri
        rw [List.getElem?_append_left (lt_of_getElem?_some hx)]
        exact hx
    | lend t =>
      obtain ⟨ti, si, ht, hp, h0, hcr, hs'⟩ := borrow_token_ok hok
      have hxt : x ≠ t := by
        intro e
        rw [e] at hx
        rw [hx] at ht
        injection ht with e'
        rw [← e'] at hcr
        rw [hdead] at hcr
        exact RefState.noConfusion hcr
      rcases eq_or_ne x ti.parent with hxp | hxp
      · have hsr : ri = si := by
          rw [hxp] at hx
          rw [hx] at hp
          injection hp with e'
        refine ⟨decTok si, ?_, ?_⟩
        · rw [hs']
          show (updRef (updRef (updRef s.ref_info ti.parent decTok) t incTok) t
            (setSt .Borrowing))[x]? = some (decTok si)
          rw [getElem?_updRef_ne _ hxt, getElem?_updRef_ne _ hxt, hxp]
          exact getElem?_updRef_self _ hp
        · show (decTok si).state = .Dead
          rw [show (decTok si).state = si.state from rfl, ← hsr, hdead]
      · refine ⟨ri, ?_, hdead⟩
        rw [hs']
        show (updRef (updRef (updRef s.ref_info ti.parent decTok) t incTok) t
          (setSt .Borrowing))[x]? = some ri
        rw [getElem?_updRef_ne _ hxt, getElem?_updRef_ne _ hxt, getElem?_updRef_ne _ hxp]
        exact hx
    | ret y =>
      obtain ⟨si, hy, h1, hsp, ⟨pi, hpi⟩, hs'⟩ := return_token_ok hok
      rcases eq_or_ne x y with hxy | hxy
      · have hylen2 : y < (updRef (updRef s.ref_info y decTok) si.parent incTok).length := by
          rw [updRef_length, updRef_length]
          exact lt_of_getElem?_some hy
        obtain ⟨X, hX⟩ : ∃ X, (updRef (updRef s.ref_info y decTok) si.parent incTok)[y]?
            = some X := ⟨_, List.getElem?_eq_getElem hylen2⟩
        refine ⟨setSt .Dead X, ?_, rfl⟩
        rw [hs', hxy]
        exact getElem?_updRef_self _ hX
      · rcases eq_or_ne x si.parent with hxp | hxp
        · have hpr : ri = pi := by
            rw [hxp] at hx
            rw [hx] at hpi
            injection hpi with e'
          refine ⟨incTok pi, ?_, ?_⟩
          · rw [hs']
            show (updRef (updRef (updRef s.ref_info y decTok) si.parent incTok) y
              (setSt .Dead))[x]? = some (incTok pi)
            rw [getElem?_updRef_ne _ hxy, hxp]
            refine getElem?_updRef_self _ ?_
            rw [← hxp, getElem?_updRef_ne _ hxy, hxp]
            exact hpi
          · show (incTok pi).state = .Dead
            rw [show (incTok pi).state = pi.state from rfl, ← hpr, hdead]
        · refine ⟨ri, ?_, hdead⟩
          rw [hs']
          show (updRef (updRef (updRef s.ref_info y decTok) si.parent incTok) y
            (setSt .Dead))[x]? = some ri
          rw [getElem?_updRef_ne _ hxy, getElem?_updRef_ne _ hxp, getElem?_updRef_ne _ hxy]
          exact hx
    | split y =>
      obtain ⟨si, hy, h0, hs'⟩ := dup_token_ok hok
      rcases eq_or_ne x y with hxy | hxy
      · have hsr : ri = si := by
          rw [hxy] at hx
          rw [hx] at hy
          injection hy with e'
        refine ⟨bumpSplit si, ?_, ?_⟩
        · rw [hs', hxy]
          exact getElem?_updRef_self _ hy
        · show (bumpSplit si).state = .Dead
          rw [show (bumpSplit si).state = si.state from rfl, ← hsr, hdead]
      · refine ⟨ri, ?_, hdead⟩
        rw [hs']
        show (updRef s.ref_info y bumpSplit)[x]? = some ri
        rw [getElem?_updRef_ne _ hxy]
        exact hx
    | merge y =>
      obtain ⟨si, hy, h1, h2, hs'⟩ := merge_token_ok hok
      rcases eq_or_ne x y with hxy | hxy
      · have hsr : ri = si := by
          rw [hxy] at hx
          rw [hx] at hy
          injection hy with e'
        refine ⟨dropSplit si, ?_, ?_⟩
        · rw [hs', hxy]
          exact getElem?_updRef_self _ hy
        · show (dropSplit si).state = .Dead
          rw [show (dropSplit si).state = si.state from rfl, ← hsr, hdead]
      · refine ⟨ri, ?_, hdead⟩
        rw [hs']
        show (updRef s.ref_info y dropSplit)[x]? = some ri
        rw [getElem?_updRef_ne _ hxy]
        exact hx
    | setPerms y m =>
      obtain ⟨_, _, hs'⟩ := set_token_perms_ok hok
      refine ⟨ri, ?_, hdead⟩
      rw [hs']
      exact hx
    | use y a =>
      rw [use_token_ok_eq hok]
      exact ⟨ri, hx, hdead⟩
  · intro s x ri hx hdead
    constructor
    · intro s' hcon
      unfold borrow_token at hcon
      simp only [hx] at hcon
      cases hpl : s.ref_info[ri.parent]? with
      | none =>
        simp only [hpl] at hcon
        exact Except.noConfusion hcon
      | some pinfo =>
        simp only [hpl] at hcon
        by_cases h0 : pinfo.num_tokens = 0
        · rw [if_pos h0] at hcon
          exact Except.noConfusion hcon
        · rw [if_neg h0] at hcon
          simp only [hdead] at hcon
          exact Except.noConfusion hcon
    · intro pinfo hpl
      constructor
      · intro htk
        unfold borrow_token
        simp only [hx, hpl]
        rw [if_neg (by omega)]
        simp only [hdead]
      · intro h0
        unfold borrow_token
        simp only [hx, hpl]
        rw [if_pos h0]

/-- Witness for the amended C7: the state after `return_unit(root)` has a Dead
reference at id 0 and lending to it fails DeadTarget. -/
theorem C7_dead_absorbing_witness :
    (∃ ri', sDeadRoot.ref_info[0]? = some ri' ∧ ri'.state = .Dead) ∧
    borrow_token sDeadRoot 0 = .error .deadTarget :=
  ⟨C7_dead_absorbing.1 mInit 0 sDeadRoot rfl,
    ((C7_dead_absorbing.2.2 sDeadRoot 0 ⟨.Unique, .Dead, 0, 1, 0⟩ rfl rfl).2
      ⟨.Unique, .Dead, 0, 1, 0⟩ rfl).1 (by decide)⟩

/-- C8: on every reachable state every operation either fully commits or
rejects with a fault carrying no state change.  In the source the only two
panic sites that fire after a mutation are merge_token's split-count underflow
and return_token's parent `unwrap`; neither can fire on a reachable state with
a registered argument, so the check-then-commit reading of every operation is
faithful. -/
theorem C8_atomic_commit (s : TokenMachine) (h : Reachable s) (x : Nat)
    (hx : x < s.ref_info.length) :
    merge_token s x ≠ .error .splitUnderflow ∧
    return_token s x ≠ .error .unregistered ∧
    ∀ op : Op, (∃ s', Op.apply s op = .ok s') ∨ ∃ f, Op.apply s op = .error f := by
  have hinv := reachable_inv h
  obtain ⟨ri, hsome⟩ : ∃ ri, s.ref_info[x]? = some ri := ⟨_, List.getElem?_eq_getElem hx⟩
  have hri : refAtL s.ref_info x = ri := refAtL_of_some hsome
  refine ⟨?_, ?_, ?_⟩
  · intro hcon
    unfold merge_token at hcon
    simp only [hsome] at hcon
    by_cases h1 : ri.num_tokens ≤ 1
    · rw [if_pos h1] at hcon
      injection hcon with e
      exact Fault.noConfusion e
    · rw [if_neg h1] at hcon
      have hled := hinv.ledger x hx
      rw [refAt_def, childB_def, hri] at hled
      have hfl := borrowFlag_le_one ri
      have hsp : ¬(ri.num_splits = 0) := by
        rcases eq_or_ne x 0 with rfl | hx0
        · rw [if_pos rfl] at hled
          omega
        · rw [if_neg hx0] at hled
          omega
      rw [if_neg hsp] at hcon
      exact Except.noConfusion hcon
  · intro hcon
    unfold return_token at hcon
    simp only [hsome] at hcon
    by_cases h1 : ri.num_tokens = 0
    · rw [if_pos h1] at hcon
      injection hcon with e
      exact Fault.noConfusion e
    · rw [if_neg h1] at hcon
      by_cases h2 : 0 < ri.num_splits
      · rw [if_pos h2] at hcon
        injection hcon with e
        exact Fault.noConfusion e
      · rw [if_neg h2] at hcon
        by_cases h3 : ri.num_tokens ≠ 1
        · rw [if_pos h3] at hcon
          injection hcon with e
          exact Fault.noConfusion e
        · rw [if_neg h3] at hcon
          have hpar_lt : ri.parent < s.ref_info.length := by
            rcases eq_or_ne x 0 with rfl | hx0
            · have hrp := hinv.root_parent
              rw [refAt_def, hri] at hrp
              rw [hrp]
              exact hinv.pos
            · have hpl := hinv.parent_lt x (Nat.pos_of_ne_zero hx0) hx
              rw [refAt_def, hri] at hpl
              omega
          obtain ⟨pi, hpi⟩ : ∃ pi, s.ref_info[ri.parent]? = some pi :=
            ⟨_, List.getElem?_eq_getElem hpar_lt⟩
          simp only [hpi] at hcon
          exact Except.noConfusion hcon
  · intro op
    cases hr : Op.apply s op with
    | error f => exact Or.inr ⟨f, rfl⟩
    | ok s' => exact Or.inl ⟨s', rfl⟩

/-- Witness for C8 at the initial state. -/
theorem C8_atomic_commit_witness :
    merge_token mInit 0 ≠ .error .splitUnderflow ∧
    return_token mInit 0 ≠ .error .unregistered ∧
    ∀ op : Op, (∃ s', Op.apply mInit op = .ok s') ∨ ∃ f, Op.apply mInit op = .error f :=
  C8_atomic_commit mInit Reachable.init 0 (by decide)

/-- C9: in every reachable state, a reference with split count zero holds at
most one unit, so return_token's internal `assert!(num_tokens == 1)` can
never fire when its stated preconditions (at least one unit, no outstanding
splits) hold. -/
theorem C9_whole_unit_assert (s : TokenMachine) (h : Reachable s) (x : Nat)
    (ri : RefInfo) (hx : s.ref_info[x]? = some ri) :
    (ri.num_splits = 0 → ri.num_tokens ≤ 1) ∧
    (1 ≤ ri.num_tokens → ri.num_splits = 0 →
      return_token s x ≠ .error .assertFailed) := by
  refine ⟨fun hsp => reachable_sp_zero_tokens_le_one h hx hsp, ?_⟩
  intro htk hsp hcon
  have h1 : ri.num_tokens = 1 := by
    have := reachable_sp_zero_tokens_le_one h hx hsp
    omega
  unfold return_token at hcon
  simp only [hx] at hcon
  rw [if_neg (by omega), if_neg (by omega), if_neg (by omega)] at hcon
  cases hpl : s.ref_info[ri.parent]? with
  | none =>
    simp only [hpl] at hcon
    injection hcon with e
    exact Fault.noConfusion e
  | some pi =>
    simp only [hpl] at hcon
    exact Except.noConfusion hcon

/-- Witness for C9 at the initial state's root. -/
theorem C9_whole_unit_assert_witness :
    rootInfo.num_tokens ≤ 1 ∧ return_token mInit 0 ≠ .error .assertFailed :=
  ⟨(C9_whole_unit_assert mInit Reachable.init 0 rootInfo rfl).1 rfl,
    (C9_whole_unit_assert mInit Reachable.init 0 rootInfo rfl).2 (by decide) rfl⟩

/-- C10: use_token never changes the machine state — whenever it admits the
access it returns the state it was given (and a rejection carries no state at
all, mirroring the Rust body that never writes through `&mut self`). -/
theorem C10_use_token_frame (s : TokenMachine) (x : Nat) (a : AccessKind)
    (s' : TokenMachine) (h : use_token s x a = .ok s') : s' = s :=
  use_token_ok_eq h

/-- Witness for C10: a Read through the fresh root returns the state intact. -/
theorem C10_use_token_frame_witness :
    use_token mInit 0 .Read = .ok mInit ∧ mInit = mInit :=
  ⟨rfl, C10_use_token_frame mInit 0 .Read mInit rfl⟩

end TokenMachineModel
